import Mathlib

/-
Verification of the repository/commit synchronization and caching layer of a
GitHub-proxy backend (FastAPI + SQLAlchemy).  The Python services are shallowly
embedded: database state is an explicit structure of row lists, timestamps are
integer wall-clock minutes, and Python exceptions are modelled with `Except`.

Conventions:
* All wall-clock times are integers counting minutes; `timedelta(hours=1)` is
  60, `timedelta(days=d)` is `d * 1440`.
* A Python `datetime` is a `Dt`: a wall time plus an optional UTC offset
  (`tzinfo`), in minutes.  `off = none` is an offset-naive value.
* A Python exception that escapes a service function is `Except.error`.
-/

set_option autoImplicit false

namespace BP

/- Python exceptions that the embedded code can raise. -/
inductive PyErr where
  | typeError
  | attributeError
deriving Repr, DecidableEq

/- A Python `datetime`: wall-clock minutes plus an optional `tzinfo` UTC offset
in minutes (`none` = offset-naive). -/
structure Dt where
  wall : Int
  off : Option Int
deriving Repr, DecidableEq

/- The instant (in UTC minutes) a `Dt` denotes, reading offset-naive values as
UTC — the convention the service's docstrings state for stored values. -/
def Dt.instant (d : Dt) : Int :=
  d.wall - d.off.getD 0

/- Shapes of GitHub ISO-8601 timestamp strings, as distinguished by
`RepositoryService._parse_github_datetime`:
* `zSuffix w`     — a well-formed string ending in `Z`, wall time `w` (UTC);
* `plusOffset w o` — a well-formed string carrying a `+HH:MM` offset `o`
  (these are the strings containing a `'+'` character);
* `minusOffset w o` — a well-formed string carrying a negative `-HH:MM` offset
  `o` (no `'+'` character, so it reaches the final `else` branch);
* `naive w`       — a well-formed string with no offset;
* `malformed`     — any string `datetime.fromisoformat` rejects. -/
inductive TsStr where
  | zSuffix (w : Int)
  | plusOffset (w : Int) (o : Int)
  | minusOffset (w : Int) (o : Int)
  | naive (w : Int)
  | malformed
deriving Repr, DecidableEq

/- `RepositoryService._parse_github_datetime(datetime_str)`.

* `None`/empty input is falsy: return `None`.
* `...Z`: strip the `Z`, `fromisoformat` yields an offset-naive wall time.
* a string containing `'+'`: `fromisoformat` yields an offset-aware value,
  converted via `astimezone(timezone.utc).replace(tzinfo=None)` to naive UTC
  wall `w - o`.
* otherwise: `fromisoformat(datetime_str)` is returned unchanged — for a
  negative `-HH:MM` offset this is still an offset-AWARE value.
* malformed: `fromisoformat` raises `ValueError`, which the handler catches;
  but the handler's call
  `logger.warning("Failed to parse datetime '{datetime_str}': {e}", datetime_str=datetime_str, e=e)`
  passes keyword arguments that the standard-library `Logger._log` does not
  accept, so (the module logger being enabled for WARNING — root level defaults
  to WARNING and `main.py`'s `basicConfig` sets no level) the handler itself
  raises `TypeError` instead of reaching `return None`. -/
def parse_github_datetime : Option TsStr → Except PyErr (Option Dt)
  | none => .ok none
  | some (.zSuffix w) => .ok (some ⟨w, none⟩)
  | some (.plusOffset w o) => .ok (some ⟨w - o, none⟩)
  | some (.minusOffset w o) => .ok (some ⟨w, some o⟩)
  | some (.naive w) => .ok (some ⟨w, none⟩)
  | some .malformed => .error .typeError

/- The `dt is not None` branch body of `RepositoryService._normalize_datetime`:
offset-aware values become naive UTC, naive values are returned unchanged. -/
def normDt (d : Dt) : Dt :=
  match d.off with
  | some o => ⟨d.wall - o, none⟩
  | none => d

/- `RepositoryService._normalize_datetime(dt)`. -/
def normalize_datetime : Option Dt → Option Dt
  | none => none
  | some d => some (normDt d)

/- Python comparison of two `datetime` values: two offset-aware values compare
by instant, two naive values compare by wall time, and a mixed pair raises
`TypeError: can't compare offset-naive and offset-aware datetimes`. -/
def pyCompareDt (a b : Dt) : Except PyErr Ordering :=
  match a.off, b.off with
  | some oa, some ob => .ok (compare (a.wall - oa) (b.wall - ob))
  | none, none => .ok (compare a.wall b.wall)
  | some _, none => .error .typeError
  | none, some _ => .error .typeError

/- ------------------------------------------------------------------ -/
/- Data model (`app/models.py`).                                       -/
/- ------------------------------------------------------------------ -/

/- Row of the `repository` table.  Timestamp columns are `TIMESTAMP`
(offset-naive); the ORM session can still hold offset-aware Python values
before a flush, so they are modelled as `Dt`. -/
structure Repository where
  id : Nat
  github_repo_id : Nat
  user_id : Nat
  name : String
  full_name : String
  description : Option String
  is_private : Bool
  default_branch : String
  language : Option String
  url : String
  html_url : Option String
  repo_created_at : Option Dt
  repo_updated_at : Option Dt
  repo_pushed_at : Option Dt
  archived : Bool
  is_favorited : Bool
  access_count : Nat
  last_synced_at : Option Dt
deriving Repr, DecidableEq

/- One entry of the JSON `files_changed` payload of a commit record. -/
structure FileChange where
  filename : Option String
  status : Option String
  additions : Int
  deletions : Int
  changes : Int
deriving Repr, DecidableEq

/- Row of the `commit_history` table.  `(repository_id, commit_sha)` carries a
unique index (`idx_commit_repo_sha`).  `committed_at` and `cached_at` are
`TIMESTAMP` wall-clock minutes.  `file_count`, `additions` and `deletions`
have column default 0 and the service always inserts them as integers. -/
structure CommitHistory where
  id : Nat
  repository_id : Nat
  commit_sha : String
  commit_message : String
  author_name : Option String
  author_email : Option String
  committed_at : Int
  files_changed : Option (List FileChange)
  file_count : Int
  additions : Int
  deletions : Int
  cached_at : Int
deriving Repr, DecidableEq

/- The whole relational store reached through one session.  `nextRepoId` and
`nextCommitId` model the autoincrement primary-key counters. -/
structure DB where
  repos : List Repository
  commits : List CommitHistory
  nextRepoId : Nat
  nextCommitId : Nat
deriving Repr, DecidableEq

/- One element of the GitHub `/user/repos` JSON response, restricted to the
keys the services read.  `Option` marks keys read with `dict.get` (absent key
allowed); `privateFlag` and `archivedFlag` embed the payload keys `private`
and `archived`. -/
structure GithubRepoData where
  id : Nat
  name : String
  full_name : String
  description : Option String
  privateFlag : Option Bool
  default_branch : Option String
  language : Option String
  url : Option String
  html_url : Option String
  created_at : Option TsStr
  updated_at : Option TsStr
  pushed_at : Option TsStr
  archivedFlag : Option Bool
deriving Repr, DecidableEq

/- ------------------------------------------------------------------ -/
/- Python dict helpers.                                                -/
/- ------------------------------------------------------------------ -/

/- `d[k] = v` on a Python dict rendered as an association list: an existing
key keeps its position and gets the new value, a new key is appended
(insertion order, as in CPython 3.7+). -/
def dictInsert {α : Type} (k : Nat) (v : α) : List (Nat × α) → List (Nat × α)
  | [] => [(k, v)]
  | (k', v') :: rest => if k' == k then (k, v) :: rest else (k', v') :: dictInsert k v rest

/- `{key(x): x for x in xs}` — a dict comprehension; later duplicates of a key
overwrite earlier ones. -/
def dictOf {α : Type} (key : α → Nat) (xs : List α) : List (Nat × α) :=
  xs.foldl (fun d x => dictInsert (key x) x d) []

/- ------------------------------------------------------------------ -/
/- `RepositoryService` (`app/services/repository_service.py`).         -/
/- ------------------------------------------------------------------ -/

/- Insertion step of a stable sort by a boolean `comes-no-later-than`
relation, used to model SQL `ORDER BY`. -/
def insertOrd {α : Type} (le : α → α → Bool) (x : α) : List α → List α
  | [] => [x]
  | y :: ys => if le x y then x :: y :: ys else y :: insertOrd le x ys

/- Stable sort by a boolean relation (insertion sort). -/
def orderBy {α : Type} (le : α → α → Bool) (l : List α) : List α :=
  l.foldr (insertOrd le) []

/- `ORDER BY repo_pushed_at DESC` — larger wall times first; `NULL`s first, as
PostgreSQL defaults for descending order. -/
def pushedDescLe (a b : Repository) : Bool :=
  match a.repo_pushed_at, b.repo_pushed_at with
  | none, _ => true
  | some _, none => false
  | some x, some y => decide (y.wall ≤ x.wall)

/- `RepositoryService.get_user_repositories(user_id, include_archived)`:
the user's rows, minus archived ones unless included, ordered by
`repo_pushed_at` descending. -/
def get_user_repositories (db : DB) (user_id : Nat) (include_archived : Bool) :
    List Repository :=
  let q := db.repos.filter (fun r => r.user_id == user_id)
  let q := if include_archived then q else q.filter (fun r => !r.archived)
  orderBy pushedDescLe q

/- `RepositoryService.toggle_favorite(user_id, repository_id)`: if a row
matches both ids, flip `is_favorited`, commit, and return the new value;
otherwise return `False` without touching the store. -/
def toggle_favorite (db : DB) (user_id repository_id : Nat) : Bool × DB :=
  match db.repos.find? (fun r => r.id == repository_id && r.user_id == user_id) with
  | some repo =>
      (!repo.is_favorited,
       { db with repos := db.repos.map (fun r =>
           if r.id == repository_id && r.user_id == user_id then
             { r with is_favorited := !r.is_favorited }
           else r) })
  | none => (false, db)

/- `RepositoryService._update_repository_from_github_data(repo, data)`:
overwrite the mutable fields from the payload and refresh `last_synced_at`.
Note `repo_created_at` is NOT assigned by this function, and `url` falls back
to the existing value when the payload key is absent.  The two
`_parse_github_datetime` calls can raise (see `parse_github_datetime`). -/
def update_repository_from_github_data (repo : Repository) (data : GithubRepoData)
    (now : Int) : Except PyErr Repository :=
  match parse_github_datetime data.updated_at with
  | .error e => .error e
  | .ok upd =>
    match parse_github_datetime data.pushed_at with
    | .error e => .error e
    | .ok psh =>
      .ok { repo with
        name := data.name
        full_name := data.full_name
        description := data.description
        is_private := data.privateFlag.getD false
        default_branch := data.default_branch.getD "main"
        language := data.language
        url := data.url.getD repo.url
        html_url := data.html_url
        repo_updated_at := upd
        repo_pushed_at := psh
        archived := data.archivedFlag.getD false
        last_synced_at := some ⟨now, none⟩ }

/- `RepositoryService._create_repository_from_github_data(user_id, data)`:
build a fresh row from the payload.  `newId` is the autoincrement primary key
assigned when the row is flushed; `is_favorited`/`access_count` take their
column defaults `false`/`0`. -/
def create_repository_from_github_data (newId user_id : Nat) (data : GithubRepoData)
    (now : Int) : Except PyErr Repository :=
  match parse_github_datetime data.created_at with
  | .error e => .error e
  | .ok cre =>
    match parse_github_datetime data.updated_at with
    | .error e => .error e
    | .ok upd =>
      match parse_github_datetime data.pushed_at with
      | .error e => .error e
      | .ok psh =>
        .ok { id := newId
              github_repo_id := data.id
              user_id := user_id
              name := data.name
              full_name := data.full_name
              description := data.description
              is_private := data.privateFlag.getD false
              default_branch := data.default_branch.getD "main"
              language := data.language
              url := data.url.getD ""
              html_url := data.html_url
              repo_created_at := cre
              repo_updated_at := upd
              repo_pushed_at := psh
              archived := data.archivedFlag.getD false
              is_favorited := false
              access_count := 0
              last_synced_at := some ⟨now, none⟩ }

/- The four counters reported by incremental sync. -/
structure SyncStats where
  created : Nat
  updated : Nat
  deleted : Nat
  unchanged : Nat
deriving Repr, DecidableEq

/- The dict `sync_repositories_incremental` returns on success. -/
structure SyncResult where
  status_code : Nat
  data : List GithubRepoData
  sync_stats : SyncStats
  source : String
deriving Repr, DecidableEq

/- Body of the first loop of `sync_repositories_incremental`, for one entry of
`github_repo_map`.  A repository already present locally is updated when the
remote `updated_at` parses to a value and either the local value is absent or
the remote one is strictly newer after `_normalize_datetime` on both sides
(naive-UTC wall comparison); otherwise it is counted unchanged.  A repository
absent locally is created. -/
def sync_step (user_id : Nat) (now : Int) (existing_repos : List (Nat × Repository))
    (acc : Except PyErr (DB × SyncStats)) (entry : Nat × GithubRepoData) :
    Except PyErr (DB × SyncStats) :=
  match acc with
  | .error e => .error e
  | .ok (db, stats) =>
    match existing_repos.lookup entry.1 with
    | some existing_repo =>
      match parse_github_datetime entry.2.updated_at with
      | .error e => .error e
      | .ok github_updated =>
        if github_updated.isSome &&
           (existing_repo.repo_updated_at.isNone ||
             (match normalize_datetime github_updated,
                    normalize_datetime existing_repo.repo_updated_at with
              | some g, some l => decide (l.wall < g.wall)
              | _, _ => false))
        then
          match update_repository_from_github_data existing_repo entry.2 now with
          | .error e => .error e
          | .ok updated =>
            .ok ({ db with repos := db.repos.map (fun r =>
                     if r.user_id == user_id && r.github_repo_id == entry.1 then updated
                     else r) },
                 { stats with updated := stats.updated + 1 })
        else
          .ok (db, { stats with unchanged := stats.unchanged + 1 })
    | none =>
      match create_repository_from_github_data db.nextRepoId user_id entry.2 now with
      | .error e => .error e
      | .ok new_repo =>
        .ok ({ db with repos := db.repos ++ [new_repo], nextRepoId := db.nextRepoId + 1 },
             { stats with created := stats.created + 1 })

/- Body of the second loop of `sync_repositories_incremental`: a local
repository whose upstream id is absent from `github_repo_map` gets
`archived = True` (the row is kept) and is counted deleted. -/
def archive_step (user_id : Nat) (github_repo_map : List (Nat × GithubRepoData))
    (acc : DB × SyncStats) (entry : Nat × Repository) : DB × SyncStats :=
  if (github_repo_map.lookup entry.1).isNone then
    ({ acc.1 with repos := acc.1.repos.map (fun r =>
         if r.user_id == user_id && r.github_repo_id == entry.1 then { r with archived := true }
         else r) },
     { acc.2 with deleted := acc.2.deleted + 1 })
  else acc

/- `RepositoryService.sync_repositories_incremental(user_id, github_repos)`:
snapshot the user's rows keyed by upstream id, key the remote payload the same
way, run the update/create loop then the archive loop, commit once, and return
the raw remote list with the four counters and source `"github_api"`. -/
def sync_repositories_incremental (db : DB) (user_id : Nat)
    (github_repos : List GithubRepoData) (now : Int) :
    Except PyErr (DB × SyncResult) :=
  let existing_repos := dictOf (fun r => r.github_repo_id)
      (db.repos.filter (fun r => r.user_id == user_id))
  let github_repo_map := dictOf (fun g => g.id) github_repos
  match github_repo_map.foldl (sync_step user_id now existing_repos)
      (.ok (db, ⟨0, 0, 0, 0⟩)) with
  | .error e => .error e
  | .ok acc =>
    let res := existing_repos.foldl (archive_step user_id github_repo_map) acc
    -- self.db.commit()
    .ok (res.1, { status_code := 200, data := github_repos, sync_stats := res.2,
                  source := "github_api" })

/- Classifier for one entry of `github_repo_map`: does the first loop of
`sync_repositories_incremental` take its update branch?  This restates the
branch condition of `sync_step` as a boolean over the snapshot, for stating
how the `updated` counter is tallied. -/
def entry_updates (existing_repos : List (Nat × Repository))
    (entry : Nat × GithubRepoData) : Bool :=
  match existing_repos.lookup entry.1 with
  | none => false
  | some existing_repo =>
    match parse_github_datetime entry.2.updated_at with
    | .error _ => false
    | .ok github_updated =>
      github_updated.isSome &&
        (existing_repo.repo_updated_at.isNone ||
          (match normalize_datetime github_updated,
                 normalize_datetime existing_repo.repo_updated_at with
           | some g, some l => decide (l.wall < g.wall)
           | _, _ => false))

/- Classifier for the unchanged branch of the first sync loop: the repository
exists locally but the update condition fails. -/
def entry_unchanged (existing_repos : List (Nat × Repository))
    (entry : Nat × GithubRepoData) : Bool :=
  (existing_repos.lookup entry.1).isSome && !entry_updates existing_repos entry

/- ------------------------------------------------------------------ -/
/- `GitHubService` (`app/services/github_service.py`).                 -/
/- ------------------------------------------------------------------ -/

/- The dict `get_user_repos` answers with (cache hit, ETag hit or fresh
fetch).  `data` keeps the rows themselves; `_repo_to_dict` is a plain
projection of a row and adds nothing decidable. -/
structure ReposPayload where
  status_code : Nat
  data : List Repository
  source : String
  cache_hit : Bool
deriving Repr, DecidableEq

/- `GitHubService._get_cached_repos(user_id, max_age_hours=1)`: if some row of
the user has `last_synced_at` strictly newer than `now - max_age_hours`, the
cache path is chosen.  On that path the code calls
`logger.info("Using cached repositories for user {user_id}", user_id=user_id)`;
the module logger is enabled for INFO (`logger.setLevel(logging.DEBUG)` at
import), and the standard-library logger rejects the unexpected keyword
argument, so the call raises `TypeError` before the response dict is built.
With no fresh row the function returns `None`. -/
def get_cached_repos (db : DB) (user_id : Nat) (max_age_hours : Int) (now : Int) :
    Except PyErr (Option ReposPayload) :=
  let cutoff_time := now - max_age_hours * 60
  match db.repos.find? (fun r => r.user_id == user_id &&
      (match r.last_synced_at with
       | some t => decide (cutoff_time < t.wall)
       | none => false)) with
  | some _recent_repo =>
      let _all_repos := get_user_repositories db user_id false
      .error .typeError
  | none => .ok none

/- `GitHubService.get_user_repos(user_id, force_refresh=False)`: without
`force_refresh`, consult `_get_cached_repos` first and return its result on a
hit; otherwise (or when forcing) take the remote path
`_fetch_repos_with_etag`, whose outcome — an external HTTP interaction — is
passed in as `remote`. -/
def get_user_repos (db : DB) (user_id : Nat) (force_refresh : Bool) (now : Int)
    (remote : Except PyErr ReposPayload) : Except PyErr ReposPayload :=
  if !force_refresh then
    match get_cached_repos db user_id 1 now with
    | .error e => .error e
    | .ok (some cached_result) => .ok cached_result
    | .ok none => remote
  else remote

/- ------------------------------------------------------------------ -/
/- `CommitHistoryService` (`app/services/commit_history_service.py`).  -/
/- ------------------------------------------------------------------ -/

/- The optional file-change block of a commit payload: the keys
`files_changed`, `file_count`, `additions`, `deletions` are added to the dict
together, only when the GitHub response carried a `files` list. -/
structure FilesBlock where
  files_changed : List FileChange
  file_count : Int
  additions : Int
  deletions : Int
deriving Repr, DecidableEq

/- The `commit_info` dict built by `GitHubService._save_commits_to_history`:
the identity, message, author and `committed_at` keys are always present
(author values may be `None`); the file-change block is optional. -/
structure CommitInfo where
  repository_id : Nat
  commit_sha : String
  commit_message : String
  author_name : Option String
  author_email : Option String
  committed_at : Int
  files : Option FilesBlock
deriving Repr, DecidableEq

/- The update half of `save_commit_history`: `setattr` for every key present
in the payload (all payload keys are model attributes), leaving the
file-change columns untouched when the block is absent. -/
def updateFromInfo (c : CommitHistory) (commit_info : CommitInfo) : CommitHistory :=
  let base := { c with
    repository_id := commit_info.repository_id
    commit_sha := commit_info.commit_sha
    commit_message := commit_info.commit_message
    author_name := commit_info.author_name
    author_email := commit_info.author_email
    committed_at := commit_info.committed_at }
  match commit_info.files with
  | some fb => { base with
      files_changed := some fb.files_changed
      file_count := fb.file_count
      additions := fb.additions
      deletions := fb.deletions }
  | none => base

/- The insert half of `save_commit_history`: `CommitHistory(**commit_info)`
with the column defaults `0` for the count columns, `None` for
`files_changed`, and `functions.now()` for `cached_at`; `newId` is the
autoincrement primary key. -/
def insertFromInfo (newId : Nat) (commit_info : CommitInfo) (now : Int) : CommitHistory :=
  { id := newId
    repository_id := commit_info.repository_id
    commit_sha := commit_info.commit_sha
    commit_message := commit_info.commit_message
    author_name := commit_info.author_name
    author_email := commit_info.author_email
    committed_at := commit_info.committed_at
    files_changed := (commit_info.files.map (fun fb => fb.files_changed))
    file_count := (commit_info.files.map (fun fb => fb.file_count)).getD 0
    additions := (commit_info.files.map (fun fb => fb.additions)).getD 0
    deletions := (commit_info.files.map (fun fb => fb.deletions)).getD 0
    cached_at := now }

/- `CommitHistoryService.save_commit_history(commit_info)`: look up the row
with the payload's `(repository_id, commit_sha)`; update it in place with
`cached_at = now` if found, insert a new row otherwise.  `commitFails` models
the persistence layer raising at `self.db.commit()`: the `except` clause rolls
the session back (discarding the uncommitted mutation) and returns `None`. -/
def save_commit_history (db : DB) (commit_info : CommitInfo) (now : Int)
    (commitFails : Bool) : Option CommitHistory × DB :=
  match db.commits.find? (fun c =>
      c.repository_id == commit_info.repository_id &&
      c.commit_sha == commit_info.commit_sha) with
  | some existing_commit =>
    let updated := { updateFromInfo existing_commit commit_info with cached_at := now }
    if commitFails then (none, db)
    else
      (some updated,
       { db with commits := db.commits.map (fun c =>
           if c.repository_id == commit_info.repository_id &&
              c.commit_sha == commit_info.commit_sha then updated else c) })
  | none =>
    let commit_history := insertFromInfo db.nextCommitId commit_info now
    if commitFails then (none, db)
    else
      (some commit_history,
       { db with commits := db.commits ++ [commit_history],
                 nextCommitId := db.nextCommitId + 1 })

/- `ORDER BY committed_at DESC` for commit rows. -/
def committedDescLe (a b : CommitHistory) : Bool :=
  decide (b.committed_at ≤ a.committed_at)

/- `CommitHistoryService.get_repository_commits(repository_id, limit=100)`. -/
def get_repository_commits (db : DB) (repository_id : Nat) (limit : Nat) :
    List CommitHistory :=
  (orderBy committedDescLe
    (db.commits.filter (fun c => c.repository_id == repository_id))).take limit

/- SQL `SUM` over a column: `NULL` on an empty set, the integer sum
otherwise. -/
def sqlSum (l : List Int) : Option Int :=
  match l with
  | [] => none
  | _ => some (l.foldl (fun a b => a + b) 0)

/- The Row selected by the `get_commits_stats` query: `COUNT(id)` and the
three sums over the repository's rows.  The `unique_authors` select item is
commented out in the source, so the Row carries only these four labels. -/
structure StatsRow where
  total_commits : Nat
  total_additions : Option Int
  total_deletions : Option Int
  total_files_changed : Option Int
deriving Repr, DecidableEq

/- The aggregate select of `CommitHistoryService.get_commits_stats`. -/
def commits_stats_row (db : DB) (repository_id : Nat) : StatsRow :=
  let rows := db.commits.filter (fun c => c.repository_id == repository_id)
  { total_commits := rows.length
    total_additions := sqlSum (rows.map (fun c => c.additions))
    total_deletions := sqlSum (rows.map (fun c => c.deletions))
    total_files_changed := sqlSum (rows.map (fun c => c.file_count)) }

/- The dict `get_commits_stats` is meant to return. -/
structure StatsOut where
  total_commits : Nat
  total_additions : Int
  total_deletions : Int
  total_files_changed : Int
  unique_authors : Int
deriving Repr, DecidableEq

/- `CommitHistoryService.get_commits_stats(repository_id)`: the query computes
the four aggregates, then the result dict reads `stats.unique_authors or 0` —
a label the (commented-out) select never produced — so attribute lookup on the
Row raises `AttributeError` and the dict is never returned. -/
def get_commits_stats (db : DB) (repository_id : Nat) : Except PyErr StatsOut :=
  let stats := commits_stats_row db repository_id
  let _total_commits := stats.total_commits
  let _total_additions := stats.total_additions.getD 0
  let _total_deletions := stats.total_deletions.getD 0
  let _total_files_changed := stats.total_files_changed.getD 0
  .error .attributeError

/- `CommitHistoryService.cleanup_old_commits(repository_id, days_to_keep=30)`:
bulk-delete the repository's rows whose `cached_at` is strictly older than
`now - days_to_keep` days, commit, and return the number of rows the delete
matched. -/
def cleanup_old_commits (db : DB) (repository_id : Nat) (days_to_keep : Nat)
    (now : Int) : Nat × DB :=
  let cutoff_date := now - (days_to_keep : Int) * 1440
  let deleted_count := (db.commits.filter (fun c =>
      c.repository_id == repository_id && decide (c.cached_at < cutoff_date))).length
  let kept := db.commits.filter (fun c =>
      !(c.repository_id == repository_id && decide (c.cached_at < cutoff_date)))
  -- self.db.commit()
  (deleted_count, { db with commits := kept })

/- ------------------------------------------------------------------ -/
/- Statement abbreviations and concrete fixtures for the theorems.     -/
/- ------------------------------------------------------------------ -/

/- A concrete repository row shared by the concrete test stores below. -/
def baseRepo : Repository :=
  { id := 1, github_repo_id := 501, user_id := 1, name := "alpha",
    full_name := "octo/alpha", description := none, is_private := false,
    default_branch := "main", language := some "Python",
    url := "https://api.github.com/repos/octo/alpha", html_url := none,
    repo_created_at := none, repo_updated_at := none, repo_pushed_at := none,
    archived := false, is_favorited := false, access_count := 0,
    last_synced_at := none }

/- A concrete commit row shared by the concrete test stores below. -/
def baseCommit : CommitHistory :=
  { id := 1, repository_id := 1, commit_sha := "a1", commit_message := "init",
    author_name := some "Ann", author_email := some "ann@example.org",
    committed_at := 100, files_changed := none, file_count := 1, additions := 1,
    deletions := 0, cached_at := 100 }

/- C1 fixtures: at `now = 1000` with a 60-minute window the cutoff is 940;
`dbFresh` synced at 941 (59 minutes ago, fresh), `dbStale` at 939 (61 minutes
ago, stale) — the spec's two freshness-threshold cases. -/
def dbFresh : DB :=
  { repos := [{ baseRepo with last_synced_at := some ⟨941, none⟩ }],
    commits := [], nextRepoId := 2, nextCommitId := 1 }

def dbStale : DB :=
  { repos := [{ baseRepo with last_synced_at := some ⟨939, none⟩ }],
    commits := [], nextRepoId := 2, nextCommitId := 1 }

/- A stand-in outcome of `_fetch_repos_with_etag` for the C1 fixtures. -/
def remotePayload : ReposPayload :=
  { status_code := 200, data := [], source := "github_api", cache_hit := false }

/- C3 fixtures: one user-owned repository with one cached commit. -/
def repoC3 : Repository :=
  { baseRepo with repo_pushed_at := some ⟨90, none⟩, last_synced_at := some ⟨100, none⟩ }

def dbC3 : DB :=
  { repos := [repoC3], commits := [baseCommit], nextRepoId := 2, nextCommitId := 2 }

/- The store the C3 witness run produces: the only repository archived, the
commit row untouched. -/
def dbC3arch : DB :=
  { dbC3 with repos := [{ repoC3 with archived := true }] }

/- C4 fixtures: the local row knows upstream id 501 with created 100 and
updated 10; the remote payload reports created 200, updated 50 (strictly
newer), pushed 45, and changed values for every mutable field. -/
def repoC4 : Repository :=
  { baseRepo with repo_created_at := some ⟨100, none⟩,
                  repo_updated_at := some ⟨10, none⟩ }

def dbC4 : DB :=
  { repos := [repoC4], commits := [], nextRepoId := 2, nextCommitId := 1 }

def ghC4 : GithubRepoData :=
  { id := 501, name := "alpha2", full_name := "octo/alpha2",
    description := some "renamed", privateFlag := some true,
    default_branch := some "dev", language := some "Rust",
    url := some "https://api.github.com/repos/octo/alpha2",
    html_url := some "https://github.com/octo/alpha2",
    created_at := some (.zSuffix 200), updated_at := some (.zSuffix 50),
    pushed_at := some (.zSuffix 45), archivedFlag := some false }

/- The row the C4 sync produces: every mutable field overwritten from `ghC4`,
`last_synced_at` refreshed — but `repo_created_at` still the OLD value 100,
not the payload's 200. -/
def updC4 : Repository :=
  { repoC4 with
    name := "alpha2", full_name := "octo/alpha2",
    description := some "renamed", is_private := true, default_branch := "dev",
    language := some "Rust", url := "https://api.github.com/repos/octo/alpha2",
    html_url := some "https://github.com/octo/alpha2",
    repo_updated_at := some ⟨50, none⟩, repo_pushed_at := some ⟨45, none⟩,
    archived := false, last_synced_at := some ⟨500, none⟩ }

/- Second C4 counterexample scenario: the local row has NO stored updated
timestamp and the remote payload carries NO `updated_at` key — the claim's
"or the local value is absent" clause demands an update, but the code's
`if github_updated and (...)` guard makes the run count it unchanged with no
write. -/
def repoC4b : Repository :=
  { baseRepo with repo_updated_at := none }

def dbC4b : DB :=
  { repos := [repoC4b], commits := [], nextRepoId := 2, nextCommitId := 1 }

def ghC4b : GithubRepoData :=
  { ghC4 with updated_at := none }

/- C6 fixtures: a payload without a file block, saved into an empty store. -/
def infoC6 : CommitInfo :=
  { repository_id := 1, commit_sha := "deadbeef", commit_message := "fix",
    author_name := some "Ann", author_email := some "ann@example.org",
    committed_at := 400, files := none }

def dbC6 : DB := { repos := [], commits := [], nextRepoId := 1, nextCommitId := 1 }

/- C8 fixtures: the spec's stats example — three commits with additions
1, 2, 3 and deletions 0, 1, 1 (file counts 1, 1, 2). -/
def dbC8 : DB :=
  { repos := [], nextRepoId := 1, nextCommitId := 4,
    commits :=
      [ baseCommit,
        { baseCommit with
          id := 2, commit_sha := "b2", additions := 2,
          deletions := 1, file_count := 1 },
        { baseCommit with
          id := 3, commit_sha := "c3", additions := 3,
          deletions := 1, file_count := 2 } ] }

/- C10 fixtures: user 3 owns repository row 7 (currently favorited). -/
def repoC10 : Repository :=
  { baseRepo with id := 7, github_repo_id := 507, user_id := 3, is_favorited := true }

def dbC10 : DB :=
  { repos := [repoC10], commits := [], nextRepoId := 8, nextCommitId := 1 }

/- ------------------------------------------------------------------ -/
/- Theorems.                                                           -/
/- ------------------------------------------------------------------ -/

/-- C2: the claim says `_parse_github_datetime` returns `None` on every
malformed timestamp string and never raises.  On the code this fails: the
`except` handler's `logger.warning` call passes unexpected keyword arguments to
the standard-library logger, which raises `TypeError`, aborting the caller.
This theorem evaluates the embedded parser at a malformed string: the result is
a raised fault, not the explicit absent result the claim requires. -/
theorem parse_github_datetime_malformed_raises :
    parse_github_datetime (some .malformed) = .error .typeError ∧
    parse_github_datetime (some .malformed) ≠ .ok none := by
  constructor
  · rfl
  · intro h
    exact Except.noConfusion h

/-- C5: for every pair of timestamps where one carries an explicit offset and
the other is offset-free, comparing the two after UTC-normalization never
faults and yields the same ordering as comparing the two instants in UTC;
moreover the normalizer converts the offset-aware value to its naive UTC
instant and leaves the naive value unchanged. -/
theorem normalize_compare_timezone_safe (a b : Dt)
    (ha : a.off.isSome = true) (hb : b.off = none) :
    pyCompareDt (normDt a) (normDt b) = .ok (compare a.instant b.instant) ∧
    normalize_datetime (some a) = some ⟨a.instant, none⟩ ∧
    normalize_datetime (some b) = some b := by
  obtain ⟨oa, hoa⟩ := Option.isSome_iff_exists.mp ha
  refine ⟨?_, ?_, ?_⟩
  · simp [pyCompareDt, normDt, Dt.instant, hoa, hb]
  · simp [normalize_datetime, normDt, Dt.instant, hoa]
  · simp [normalize_datetime, normDt, hb]

/-- Witness for C5 at a concrete pair: `a` is wall 120 at offset +60 (instant
60), `b` is naive wall 30 (instant 30); the normalized comparison succeeds and
reports `gt`, matching the UTC-instant comparison. -/
theorem normalize_compare_timezone_safe_witness :
    pyCompareDt (normDt ⟨120, some 60⟩) (normDt ⟨30, none⟩) =
      .ok (compare (Dt.instant ⟨120, some 60⟩) (Dt.instant ⟨30, none⟩)) ∧
    normalize_datetime (some ⟨120, some 60⟩) = some ⟨Dt.instant ⟨120, some 60⟩, none⟩ ∧
    normalize_datetime (some ⟨30, none⟩) = some ⟨30, none⟩ :=
  normalize_compare_timezone_safe ⟨120, some 60⟩ ⟨30, none⟩ rfl rfl

/- Mapping a function that fixes every element of a list is the identity. -/
theorem map_id_of_forall {α : Type} (f : α → α) :
    ∀ (l : List α), (∀ x ∈ l, f x = x) → l.map f = l
  | [], _ => rfl
  | x :: xs, h => by
    have hx := h x (List.mem_cons_self x xs)
    have hxs := map_id_of_forall f xs (fun y hy => h y (List.mem_cons_of_mem x hy))
    simp [hx, hxs]

/- Upserting over an append: when no element of `l` matches the key predicate
and `a` does, replacing matching elements by `u` rewrites exactly the last
element. -/
theorem map_upsert_append {α : Type} (p : α → Bool) (u : α) (l : List α)
    (h : ∀ x ∈ l, ¬p x = true) (a : α) (ha : p a = true) :
    (l ++ [a]).map (fun x => if p x then u else x) = l ++ [u] := by
  rw [List.map_append]
  have h1 : l.map (fun x => if p x then u else x) = l := by
    refine map_id_of_forall _ l (fun x hx => ?_)
    have hx' : p x = false := by simpa using h x hx
    simp [hx']
  simp [h1, ha]

/- Re-applying the very payload a row was inserted from changes nothing: the
update half of the upsert writes back the same values. -/
theorem update_insert_self (newId : Nat) (commit_info : CommitInfo) (now : Int) :
    updateFromInfo (insertFromInfo newId commit_info now) commit_info =
      insertFromInfo newId commit_info now := by
  cases hf : commit_info.files <;> simp [updateFromInfo, insertFromInfo, hf]

/-- C1: the claim says that with a repository synced 59 minutes ago (window 60
minutes) `get_user_repos` without `force_refresh` returns the cached list with
source `"cache"` and a cache-hit flag.  On the code the freshness check does
select the cache path, but the path's
`logger.info("Using cached repositories for user {user_id}", user_id=user_id)`
call raises `TypeError` (the standard-library logger rejects the keyword
argument), so the call aborts instead of returning the cached payload.  The
second conjunct confirms the claim's other half: at 61 minutes the remote path
is taken and its outcome returned. -/
theorem get_user_repos_cache_hit_raises :
    get_user_repos dbFresh 1 false 1000 (.ok remotePayload) = .error .typeError ∧
    get_user_repos dbStale 1 false 1000 (.ok remotePayload) = .ok remotePayload := by
  constructor <;> rfl

/-- C8: the claim says the statistics query returns the commit count and the
three sums (with empty sums as 0).  On the code it never returns: the result
dict reads `stats.unique_authors`, a label the (commented-out) select never
produced, so the Row raises `AttributeError`.  At the spec's own example —
three commits with additions 1, 2, 3 and deletions 0, 1, 1 — the selected Row
does hold total_commits 3, total_additions 6, total_deletions 2 (and file-count
sum 4), but `get_commits_stats` raises instead of returning them. -/
theorem get_commits_stats_raises_attributeError :
    get_commits_stats dbC8 1 = .error .attributeError ∧
    commits_stats_row dbC8 1 =
      { total_commits := 3, total_additions := some 6, total_deletions := some 2,
        total_files_changed := some 4 } := by
  constructor <;> rfl

/-- C9: whenever the single-record upsert `save_commit_history` encounters a
persistence fault (the commit raises), the operation rolls back — the store is
exactly what it was before the call — and the function returns the absent
result `None` rather than propagating the fault. -/
theorem save_commit_history_fault_rolls_back (db : DB) (commit_info : CommitInfo)
    (now : Int) :
    save_commit_history db commit_info now true = (none, db) := by
  unfold save_commit_history
  cases db.commits.find? (fun c =>
      c.repository_id == commit_info.repository_id &&
      c.commit_sha == commit_info.commit_sha) <;> rfl

/-- C7: `cleanup_old_commits(repository_id, days_to_keep)` returns exactly the
number of the repository's rows whose `cached_at` is strictly older than
`now - days_to_keep` days, and a row survives the sweep iff it is an original
row that is not such a victim — so rows of other repositories and younger rows
are untouched (`committed_at` plays no role), and the repository table is not
touched at all. -/
theorem cleanup_old_commits_correct (db : DB) (repository_id : Nat)
    (days_to_keep : Nat) (now : Int) :
    (cleanup_old_commits db repository_id days_to_keep now).1 =
      (db.commits.filter (fun c => c.repository_id == repository_id &&
        decide (c.cached_at < now - (days_to_keep : Int) * 1440))).length ∧
    (∀ c : CommitHistory,
      c ∈ (cleanup_old_commits db repository_id days_to_keep now).2.commits ↔
        (c ∈ db.commits ∧
         ¬(c.repository_id = repository_id ∧
           c.cached_at < now - (days_to_keep : Int) * 1440))) ∧
    (cleanup_old_commits db repository_id days_to_keep now).2.repos = db.repos := by
  refine ⟨rfl, ?_, rfl⟩
  intro c
  simp only [cleanup_old_commits, List.mem_filter, Bool.not_eq_true',
    Bool.and_eq_true, beq_iff_eq, decide_eq_true_eq, not_and]
  constructor
  · rintro ⟨hc, hfalse⟩
    refine ⟨hc, fun hrid hold => ?_⟩
    rw [Bool.and_eq_false_iff] at hfalse
    rcases hfalse with h | h
    · exact absurd hrid (by simpa using h)
    · exact absurd hold (by simpa using h)
  · rintro ⟨hc, hni⟩
    refine ⟨hc, ?_⟩
    by_cases hrid : c.repository_id = repository_id
    · have := hni hrid
      simp [hrid, this]
    · simp [hrid]

/-- C10: `toggle_favorite` returns the repository's new favorited state after
flipping it when `(user_id, repository_id)` resolves to an owned row, and
`False` with the store untouched when it does not — so a returned `False` is
ambiguous between a successful true→false toggle and a no-op.  The concrete
conjuncts exhibit the ambiguity: toggling the owned, favorited row 7 returns
`false` (after a real write), and toggling the unowned id 8 also returns
`false` (with no write). -/
theorem toggle_favorite_return_ambiguity :
    (∀ (db : DB) (user_id repository_id : Nat) (repo : Repository),
      db.repos.find? (fun r => r.id == repository_id && r.user_id == user_id) =
          some repo →
      (toggle_favorite db user_id repository_id).1 = !repo.is_favorited) ∧
    (∀ (db : DB) (user_id repository_id : Nat),
      db.repos.find? (fun r => r.id == repository_id && r.user_id == user_id) =
          none →
      toggle_favorite db user_id repository_id = (false, db)) ∧
    toggle_favorite dbC10 3 7 =
      (false, { dbC10 with repos := [{ repoC10 with is_favorited := false }] }) ∧
    toggle_favorite dbC10 3 8 = (false, dbC10) := by
  refine ⟨?_, ?_, ?_, ?_⟩
  · intro db user_id repository_id repo hfind
    simp [toggle_favorite, hfind]
  · intro db user_id repository_id hfind
    simp [toggle_favorite, hfind]
  · rfl
  · rfl

/-- Witness for C10 at the concrete store: applying the found-row clause to
row 7 of user 3 and the no-row clause to the unowned id 9. -/
theorem toggle_favorite_return_ambiguity_witness :
    (toggle_favorite dbC10 3 7).1 = !repoC10.is_favorited ∧
    toggle_favorite dbC10 3 9 = (false, dbC10) :=
  ⟨toggle_favorite_return_ambiguity.1 dbC10 3 7 repoC10 rfl,
   toggle_favorite_return_ambiguity.2.1 dbC10 3 9 rfl⟩

/-- C6: starting from a store with no row for the payload's
`(repository_id, commit_sha)`, calling `save_commit_history` twice with an
identical payload first inserts one row, then updates that row in place with
`cached_at` refreshed to the second call's time — the final store holds
exactly one row for the pair, namely the inserted row with the new
`cached_at`. -/
theorem save_commit_history_idempotent_upsert (db : DB) (commit_info : CommitInfo)
    (t1 t2 : Int)
    (hfind : db.commits.find? (fun c =>
        c.repository_id == commit_info.repository_id &&
        c.commit_sha == commit_info.commit_sha) = none) :
    save_commit_history db commit_info t1 false =
      (some (insertFromInfo db.nextCommitId commit_info t1),
       { db with
         commits := db.commits ++ [insertFromInfo db.nextCommitId commit_info t1],
         nextCommitId := db.nextCommitId + 1 }) ∧
    save_commit_history
        { db with
          commits := db.commits ++ [insertFromInfo db.nextCommitId commit_info t1],
          nextCommitId := db.nextCommitId + 1 } commit_info t2 false =
      (some { insertFromInfo db.nextCommitId commit_info t1 with cached_at := t2 },
       { db with
         commits := db.commits ++
           [{ insertFromInfo db.nextCommitId commit_info t1 with cached_at := t2 }],
         nextCommitId := db.nextCommitId + 1 }) ∧
    (db.commits ++
        [{ insertFromInfo db.nextCommitId commit_info t1 with cached_at := t2 }]).filter
        (fun c => c.repository_id == commit_info.repository_id &&
          c.commit_sha == commit_info.commit_sha) =
      [{ insertFromInfo db.nextCommitId commit_info t1 with cached_at := t2 }] := by
  have hall : ∀ c ∈ db.commits,
      ¬((c.repository_id == commit_info.repository_id &&
         c.commit_sha == commit_info.commit_sha) = true) :=
    List.find?_eq_none.mp hfind
  have hnew : ((insertFromInfo db.nextCommitId commit_info t1).repository_id ==
        commit_info.repository_id &&
      (insertFromInfo db.nextCommitId commit_info t1).commit_sha ==
        commit_info.commit_sha) = true := by
    simp [insertFromInfo]
  have hfind2 :
      (db.commits ++ [insertFromInfo db.nextCommitId commit_info t1]).find?
          (fun c => c.repository_id == commit_info.repository_id &&
            c.commit_sha == commit_info.commit_sha) =
        some (insertFromInfo db.nextCommitId commit_info t1) := by
    rw [List.find?_append, hfind]
    simp [List.find?, hnew]
  refine ⟨by simp [save_commit_history, hfind], ?_, ?_⟩
  · simp only [save_commit_history, hfind2, update_insert_self]
    rw [if_neg (by simp)]
    rw [map_upsert_append (fun c =>
          c.repository_id == commit_info.repository_id &&
          c.commit_sha == commit_info.commit_sha)
        { insertFromInfo db.nextCommitId commit_info t1 with cached_at := t2 }
        db.commits hall (insertFromInfo db.nextCommitId commit_info t1) hnew]
  · rw [List.filter_append]
    have h1 : db.commits.filter (fun c =>
        c.repository_id == commit_info.repository_id &&
        c.commit_sha == commit_info.commit_sha) = [] :=
      List.filter_eq_nil_iff.mpr hall
    rw [h1]
    simp [insertFromInfo]

/-- Witness for C6: saving the concrete payload `infoC6` twice (at times 0 and
5) into the empty store. -/
theorem save_commit_history_idempotent_upsert_witness :
    save_commit_history dbC6 infoC6 0 false =
      (some (insertFromInfo dbC6.nextCommitId infoC6 0),
       { dbC6 with
         commits := dbC6.commits ++ [insertFromInfo dbC6.nextCommitId infoC6 0],
         nextCommitId := dbC6.nextCommitId + 1 }) ∧
    save_commit_history
        { dbC6 with
          commits := dbC6.commits ++ [insertFromInfo dbC6.nextCommitId infoC6 0],
          nextCommitId := dbC6.nextCommitId + 1 } infoC6 5 false =
      (some { insertFromInfo dbC6.nextCommitId infoC6 0 with cached_at := 5 },
       { dbC6 with
         commits := dbC6.commits ++
           [{ insertFromInfo dbC6.nextCommitId infoC6 0 with cached_at := 5 }],
         nextCommitId := dbC6.nextCommitId + 1 }) ∧
    (dbC6.commits ++
        [{ insertFromInfo dbC6.nextCommitId infoC6 0 with cached_at := 5 }]).filter
        (fun c => c.repository_id == infoC6.repository_id &&
          c.commit_sha == infoC6.commit_sha) =
      [{ insertFromInfo dbC6.nextCommitId infoC6 0 with cached_at := 5 }] :=
  save_commit_history_idempotent_upsert dbC6 infoC6 0 5 rfl

/- ------------------------------------------------------------------ -/
/- Association-list (Python dict) lemmas.                              -/
/- ------------------------------------------------------------------ -/

/- `List.lookup` on a cons cell, written as an `if`. -/
theorem lookup_cons {α : Type} (k k' : Nat) (v : α) (rest : List (Nat × α)) :
    List.lookup k ((k', v) :: rest) = if k == k' then some v else List.lookup k rest := by
  rw [List.lookup]
  cases h : k == k' <;> simp [h]

/- A successful lookup returns a stored entry. -/
theorem lookup_mem {α : Type} (k : Nat) (v : α) :
    ∀ (d : List (Nat × α)), d.lookup k = some v → (k, v) ∈ d
  | [], h => by simp [List.lookup] at h
  | (k', v') :: rest, h => by
    rw [lookup_cons] at h
    by_cases hk : (k == k') = true
    · rw [if_pos hk] at h
      obtain rfl : v' = v := Option.some.inj h
      obtain rfl : k = k' := by simpa using hk
      exact List.mem_cons_self _ _
    · rw [if_neg hk] at h
      exact List.mem_cons_of_mem _ (lookup_mem k v rest h)

/- Failed lookup through a dict insertion. -/
theorem dictInsert_lookup_none {α : Type} (k k' : Nat) (v : α) :
    ∀ (d : List (Nat × α)),
    ((dictInsert k' v d).lookup k = none ↔ (k == k') = false ∧ d.lookup k = none)
  | [] => by
    rw [show dictInsert k' v ([] : List (Nat × α)) = [(k', v)] from rfl, lookup_cons]
    cases h : k == k' <;> simp [h, List.lookup]
  | (k₀, v₀) :: rest => by
    rw [dictInsert]
    by_cases h0 : (k₀ == k') = true
    · rw [if_pos h0, lookup_cons, lookup_cons]
      have hk : k₀ = k' := by simpa using h0
      subst hk
      cases h : k == k₀ <;> simp [h]
    · rw [if_neg h0, lookup_cons, lookup_cons]
      cases h : k == k₀
      · rw [if_neg (by simp [h]), if_neg (by simp [h])]
        exact dictInsert_lookup_none k k' v rest
      · simp [h]

/- Failed lookup in a dict comprehension means no element carries the key. -/
theorem foldl_dictInsert_lookup_none {α : Type} (key : α → Nat) (k : Nat) :
    ∀ (xs : List α) (acc : List (Nat × α)),
    ((xs.foldl (fun d x => dictInsert (key x) x d) acc).lookup k = none ↔
      (∀ x ∈ xs, (k == key x) = false) ∧ acc.lookup k = none)
  | [], acc => by simp
  | x :: xs, acc => by
    rw [List.foldl_cons, foldl_dictInsert_lookup_none key k xs, dictInsert_lookup_none]
    constructor
    · rintro ⟨hall, hx, hacc⟩
      refine ⟨fun y hy => ?_, hacc⟩
      rcases List.mem_cons.mp hy with rfl | hy'
      · exact hx
      · exact hall y hy'
    · rintro ⟨hall, hacc⟩
      exact ⟨fun y hy => hall y (List.mem_cons_of_mem x hy),
        hall x (List.mem_cons_self x xs), hacc⟩

theorem dictOf_lookup_none {α : Type} (key : α → Nat) (xs : List α) (k : Nat) :
    ((dictOf key xs).lookup k = none ↔ ∀ x ∈ xs, (k == key x) = false) := by
  rw [dictOf, foldl_dictInsert_lookup_none]
  simp [List.lookup]

/- Entries of a dict insertion are the new pair or old entries. -/
theorem dictInsert_mem {α : Type} (k : Nat) (v : α) (e : Nat × α) :
    ∀ (d : List (Nat × α)), e ∈ dictInsert k v d → e = (k, v) ∨ e ∈ d
  | [], h => by simpa [dictInsert] using h
  | (k₀, v₀) :: rest, h => by
    rw [dictInsert] at h
    by_cases h0 : (k₀ == k) = true
    · rw [if_pos h0] at h
      rcases List.mem_cons.mp h with rfl | h'
      · exact Or.inl rfl
      · exact Or.inr (List.mem_cons_of_mem _ h')
    · rw [if_neg h0] at h
      rcases List.mem_cons.mp h with rfl | h'
      · exact Or.inr (List.mem_cons_self _ _)
      · rcases dictInsert_mem k v e rest h' with h'' | h''
        · exact Or.inl h''
        · exact Or.inr (List.mem_cons_of_mem _ h'')

/- Every entry of a dict comprehension pairs an element with its own key. -/
theorem foldl_dictInsert_wf {α : Type} (key : α → Nat) (ys : List α) :
    ∀ (xs : List α) (acc : List (Nat × α)),
    (∀ x ∈ xs, x ∈ ys) →
    (∀ e ∈ acc, e.1 = key e.2 ∧ e.2 ∈ ys) →
    ∀ e ∈ xs.foldl (fun d x => dictInsert (key x) x d) acc, e.1 = key e.2 ∧ e.2 ∈ ys
  | [], _, _, hacc => hacc
  | x :: xs, acc, hxs, hacc => by
    rw [List.foldl_cons]
    refine foldl_dictInsert_wf key ys xs (dictInsert (key x) x acc)
      (fun y hy => hxs y (List.mem_cons_of_mem x hy)) ?_
    intro e he
    rcases dictInsert_mem (key x) x e acc he with rfl | he'
    · exact ⟨rfl, hxs x (List.mem_cons_self x xs)⟩
    · exact hacc e he'

theorem dictOf_wf {α : Type} (key : α → Nat) (xs : List α) :
    ∀ e ∈ dictOf key xs, e.1 = key e.2 ∧ e.2 ∈ xs :=
  foldl_dictInsert_wf key xs xs [] (fun _ h => h) (by simp)

/- Inserting a fresh key appends the pair at the end. -/
theorem dictInsert_append {α : Type} (k : Nat) (v : α) :
    ∀ (d : List (Nat × α)), (∀ e ∈ d, (e.1 == k) = false) →
    dictInsert k v d = d ++ [(k, v)]
  | [], _ => rfl
  | (k₀, v₀) :: rest, h => by
    rw [dictInsert, if_neg (by simpa using h (k₀, v₀) (List.mem_cons_self _ _)),
      dictInsert_append k v rest (fun e he => h e (List.mem_cons_of_mem _ he))]
    rfl

/- With pairwise-distinct keys a dict comprehension is just the list of
(key, element) pairs in order. -/
theorem foldl_dictInsert_eq_append {α : Type} (key : α → Nat) :
    ∀ (xs : List α) (acc : List (Nat × α)),
    (acc.map Prod.fst ++ xs.map key).Nodup →
    xs.foldl (fun d x => dictInsert (key x) x d) acc =
      acc ++ xs.map (fun x => (key x, x))
  | [], acc, _ => by simp
  | x :: xs, acc, h => by
    have hkx : key x ∉ acc.map Prod.fst := by
      have hd := List.disjoint_of_nodup_append h
      intro hmem
      exact hd hmem (by simp)
    have hx : ∀ e ∈ acc, (e.1 == key x) = false := by
      intro e he
      have : e.1 ≠ key x := fun hcontra =>
        hkx (hcontra ▸ List.mem_map_of_mem Prod.fst he)
      simpa using this
    have hn : ((acc ++ [(key x, x)]).map Prod.fst ++ xs.map key).Nodup := by
      have : (acc ++ [(key x, x)]).map Prod.fst ++ xs.map key =
          acc.map Prod.fst ++ key x :: xs.map key := by
        simp
      rw [this]
      simpa using h
    rw [List.foldl_cons, dictInsert_append (key x) x acc hx,
      foldl_dictInsert_eq_append key xs (acc ++ [(key x, x)]) hn]
    simp

theorem dictOf_eq_map {α : Type} (key : α → Nat) (xs : List α)
    (h : (xs.map key).Nodup) :
    dictOf key xs = xs.map (fun x => (key x, x)) := by
  rw [dictOf, foldl_dictInsert_eq_append key xs [] (by simpa using h)]
  simp

/- Lookup of an element's key in the (key, element) pair list. -/
theorem lookup_map_pair {α : Type} (key : α → Nat) :
    ∀ (xs : List α), (xs.map key).Nodup → ∀ a ∈ xs,
    (xs.map (fun x => (key x, x))).lookup (key a) = some a
  | [], _, a, ha => by simp at ha
  | x :: xs, h, a, ha => by
    rw [List.map_cons, lookup_cons]
    rcases List.mem_cons.mp ha with rfl | ha'
    · simp
    · have hne : key a ≠ key x := by
        intro hcontra
        exact (List.nodup_cons.mp h).1 (hcontra ▸ List.mem_map_of_mem key ha')
      rw [if_neg (by simpa using hne)]
      exact lookup_map_pair key xs (List.nodup_cons.mp h).2 a ha'

/- The lookup-failure test against a dict comprehension, as a membership test
on the underlying keys. -/
theorem dictOf_lookup_isNone_eq {α : Type} (key : α → Nat) (xs : List α) (k : Nat) :
    ((dictOf key xs).lookup k).isNone = !((xs.map key).contains k) := by
  by_cases h : (dictOf key xs).lookup k = none
  · have hall := (dictOf_lookup_none key xs k).mp h
    have hnm : k ∉ xs.map key := by
      intro hm
      obtain ⟨x, hx, rfl⟩ := List.mem_map.mp hm
      simpa using hall x hx
    have hc : ((xs.map key).contains k) = false := by
      rw [← Bool.not_eq_true]
      intro hcontra
      exact hnm (List.elem_iff.mp hcontra)
    rw [h, hc]
    rfl
  · obtain ⟨v, hv⟩ := Option.ne_none_iff_exists'.mp h
    obtain ⟨hk, hvmem⟩ := dictOf_wf key xs (k, v) (lookup_mem k v _ hv)
    have hc : ((xs.map key).contains k) = true := by
      refine List.elem_iff.mpr ?_
      rw [show k = key v from hk]
      exact List.mem_map_of_mem key hvmem
    rw [hv, hc]
    rfl

/- countP respects pointwise-equal predicates. -/
theorem countP_congr_eq {α : Type} (p q : α → Bool) :
    ∀ (l : List α), (∀ a ∈ l, p a = q a) → l.countP p = l.countP q
  | [], _ => rfl
  | a :: l, h => by
    rw [List.countP_cons, List.countP_cons, h a (List.mem_cons_self a l),
      countP_congr_eq p q l (fun b hb => h b (List.mem_cons_of_mem a hb))]

/- Membership in the insertion-sort model of ORDER BY. -/
theorem mem_insertOrd {α : Type} (le : α → α → Bool) (x y : α) :
    ∀ (l : List α), (y ∈ insertOrd le x l ↔ y = x ∨ y ∈ l)
  | [] => by simp [insertOrd]
  | z :: zs => by
    rw [insertOrd]
    by_cases h : le x z = true
    · rw [if_pos h]
      simp [List.mem_cons]
    · rw [if_neg h]
      rw [List.mem_cons, List.mem_cons, mem_insertOrd le x y zs]
      tauto

theorem mem_orderBy {α : Type} (le : α → α → Bool) (y : α) :
    ∀ (l : List α), (y ∈ orderBy le l ↔ y ∈ l)
  | [] => Iff.rfl
  | z :: zs => by
    rw [show orderBy le (z :: zs) = insertOrd le z (orderBy le zs) from rfl,
      mem_insertOrd, mem_orderBy le y zs, List.mem_cons]

/- ------------------------------------------------------------------ -/
/- Invariants of the incremental-sync loops.                           -/
/- ------------------------------------------------------------------ -/

/- A successful field update keeps the row's identity columns. -/
theorem update_ok_fields (er : Repository) (data : GithubRepoData) (now : Int)
    (upd : Repository)
    (h : update_repository_from_github_data er data now = .ok upd) :
    upd.github_repo_id = er.github_repo_id ∧ upd.user_id = er.user_id := by
  unfold update_repository_from_github_data at h
  split at h
  · simp at h
  · split at h
    · simp at h
    · cases Except.ok.inj h
      exact ⟨rfl, rfl⟩

/- A successfully created row carries the payload's upstream id and the
synced user. -/
theorem create_ok_fields (i user_id : Nat) (data : GithubRepoData) (now : Int)
    (nr : Repository)
    (h : create_repository_from_github_data i user_id data now = .ok nr) :
    nr.github_repo_id = data.id ∧ nr.user_id = user_id := by
  unfold create_repository_from_github_data at h
  split at h
  · simp at h
  · split at h
    · simp at h
    · split at h
      · simp at h
      · cases Except.ok.inj h
        exact ⟨rfl, rfl⟩

/- A raised exception absorbs the rest of the first sync loop. -/
theorem sync_foldl_error (user_id : Nat) (now : Int)
    (ex : List (Nat × Repository)) (err : PyErr) :
    ∀ (es : List (Nat × GithubRepoData)),
    es.foldl (sync_step user_id now ex) (.error err) = .error err
  | [] => rfl
  | e :: es => by
    rw [List.foldl_cons, show sync_step user_id now ex (.error err) e = .error err from rfl]
    exact sync_foldl_error user_id now ex err es

/- Exhaustive case analysis of one successful step of the first sync loop:
it is an update, an unchanged tally, or a creation. -/
theorem sync_step_cases (user_id : Nat) (now : Int) (ex : List (Nat × Repository))
    (d : DB) (s : SyncStats) (e : Nat × GithubRepoData) (d' : DB) (s' : SyncStats)
    (h : sync_step user_id now ex (.ok (d, s)) e = .ok (d', s')) :
    (∃ er upd, ex.lookup e.1 = some er ∧
      entry_updates ex e = true ∧
      update_repository_from_github_data er e.2 now = .ok upd ∧
      d' = { d with repos := d.repos.map (fun r =>
        if r.user_id == user_id && r.github_repo_id == e.1 then upd else r) } ∧
      s' = { s with updated := s.updated + 1 }) ∨
    (∃ er, ex.lookup e.1 = some er ∧
      entry_updates ex e = false ∧ entry_unchanged ex e = true ∧
      d' = d ∧ s' = { s with unchanged := s.unchanged + 1 }) ∨
    (∃ nr, ex.lookup e.1 = none ∧
      create_repository_from_github_data d.nextRepoId user_id e.2 now = .ok nr ∧
      d' = { d with repos := d.repos ++ [nr], nextRepoId := d.nextRepoId + 1 } ∧
      s' = { s with created := s.created + 1 }) := by
  simp only [sync_step] at h
  split at h
  case h_1 er heq =>
    split at h
    case h_1 => simp at h
    case h_2 gu hparse =>
      split at h
      case isTrue hcond =>
        split at h
        case h_1 => simp at h
        case h_2 upd hupd =>
          obtain ⟨hd, hs⟩ := Prod.mk.inj (Except.ok.inj h)
          refine Or.inl ⟨er, upd, heq, ?_, hupd, hd.symm, hs.symm⟩
          simp [entry_updates, heq, hparse, hcond]
      case isFalse hcond =>
        obtain ⟨hd, hs⟩ := Prod.mk.inj (Except.ok.inj h)
        refine Or.inr (Or.inl ⟨er, heq, ?_, ?_, hd.symm, hs.symm⟩)
        · simp only [entry_updates, heq, hparse]
          exact Bool.not_eq_true _ |>.mp hcond
        · simp only [entry_unchanged, heq, Option.isSome_some, Bool.true_and,
            Bool.not_eq_true']
          simp only [entry_updates, heq, hparse]
          exact Bool.not_eq_true _ |>.mp hcond
  case h_2 heq =>
    split at h
    case h_1 => simp at h
    case h_2 nr hnr =>
      obtain ⟨hd, hs⟩ := Prod.mk.inj (Except.ok.inj h)
      exact Or.inr (Or.inr ⟨nr, heq, hnr, hd.symm, hs.symm⟩)

/- Through a successful run of the first sync loop: the commit table and its
id counter are untouched, the deleted counter is untouched, and the updated
and unchanged counters tally exactly the entries taking the corresponding
branch. -/
theorem sync_fold_stats (user_id : Nat) (now : Int) (ex : List (Nat × Repository)) :
    ∀ (es : List (Nat × GithubRepoData)) (d0 : DB) (s0 : SyncStats)
      (d1 : DB) (s1 : SyncStats),
    es.foldl (sync_step user_id now ex) (.ok (d0, s0)) = .ok (d1, s1) →
    d1.commits = d0.commits ∧ d1.nextCommitId = d0.nextCommitId ∧
    s1.deleted = s0.deleted ∧
    s1.updated = s0.updated + es.countP (entry_updates ex) ∧
    s1.unchanged = s0.unchanged + es.countP (entry_unchanged ex)
  | [], d0, s0, d1, s1, h => by
    obtain ⟨hd, hs⟩ := Prod.mk.inj (Except.ok.inj h)
    subst hd
    subst hs
    simp
  | e :: es, d0, s0, d1, s1, h => by
    rw [List.foldl_cons] at h
    cases hstep : sync_step user_id now ex (.ok (d0, s0)) e with
    | error err =>
      rw [hstep, sync_foldl_error] at h
      simp at h
    | ok p =>
      obtain ⟨dm, sm⟩ := p
      rw [hstep] at h
      obtain ⟨ih1, ih2, ih3, ih4, ih5⟩ := sync_fold_stats user_id now ex es dm sm d1 s1 h
      rw [List.countP_cons, List.countP_cons]
      rcases sync_step_cases user_id now ex d0 s0 e dm sm hstep with
        ⟨er, upd, _, hupdc, _, hd, hs⟩ | ⟨er, _, hupdc, hunc, hd, hs⟩ |
        ⟨nr, hlk, _, hd, hs⟩
      · have hunc : entry_unchanged ex e = false := by
          simp [entry_unchanged, hupdc]
        subst hd
        subst hs
        simp only at ih1 ih2 ih3 ih4 ih5
        refine ⟨ih1, ih2, ih3, ?_, ?_⟩
        · have hcu : (if entry_updates ex e then (1 : Nat) else 0) = 1 := by
            rw [hupdc]
            rfl
          omega
        · have hcn : (if entry_unchanged ex e then (1 : Nat) else 0) = 0 := by
            rw [hunc]
            rfl
          omega
      · subst hd
        subst hs
        simp only at ih1 ih2 ih3 ih4 ih5
        refine ⟨ih1, ih2, ih3, ?_, ?_⟩
        · have hcu : (if entry_updates ex e then (1 : Nat) else 0) = 0 := by
            rw [hupdc]
            rfl
          omega
        · have hcn : (if entry_unchanged ex e then (1 : Nat) else 0) = 1 := by
            rw [hunc]
            rfl
          omega
      · have hupdc : entry_updates ex e = false := by
          simp [entry_updates, hlk]
        have hunc : entry_unchanged ex e = false := by
          simp [entry_unchanged, hlk]
        subst hd
        subst hs
        simp only at ih1 ih2 ih3 ih4 ih5
        refine ⟨ih1, ih2, ih3, ?_, ?_⟩
        · have hcu : (if entry_updates ex e then (1 : Nat) else 0) = 0 := by
            rw [hupdc]
            rfl
          omega
        · have hcn : (if entry_unchanged ex e then (1 : Nat) else 0) = 0 := by
            rw [hunc]
            rfl
          omega

/- Through a successful run of the first sync loop, when no processed entry
carries the key `k`: a row `R` of user `user_id` with upstream id `k` is
preserved, and remains the only row matching `(user_id, k)`. -/
theorem sync_fold_only_row (user_id : Nat) (now : Int) (ex : List (Nat × Repository))
    (hexwf : ∀ e ∈ ex, e.1 = e.2.github_repo_id) (k : Nat) (R : Repository)
    (hRu : R.user_id = user_id) (hRk : R.github_repo_id = k) :
    ∀ (es : List (Nat × GithubRepoData)) (d0 : DB) (s0 : SyncStats)
      (d1 : DB) (s1 : SyncStats),
    (∀ e ∈ es, e.1 ≠ k) → (∀ e ∈ es, e.1 = e.2.id) →
    es.foldl (sync_step user_id now ex) (.ok (d0, s0)) = .ok (d1, s1) →
    R ∈ d0.repos →
    (∀ x ∈ d0.repos, x.user_id = user_id → x.github_repo_id = k → x = R) →
    R ∈ d1.repos ∧
      (∀ x ∈ d1.repos, x.user_id = user_id → x.github_repo_id = k → x = R)
  | [], d0, s0, d1, s1, _, _, h, hR, honly => by
    obtain ⟨hd, _⟩ := Prod.mk.inj (Except.ok.inj h)
    subst hd
    exact ⟨hR, honly⟩
  | e :: es, d0, s0, d1, s1, hk, hwf, h, hR, honly => by
    rw [List.foldl_cons] at h
    cases hstep : sync_step user_id now ex (.ok (d0, s0)) e with
    | error err =>
      rw [hstep, sync_foldl_error] at h
      simp at h
    | ok p =>
      obtain ⟨dm, sm⟩ := p
      rw [hstep] at h
      have hek : e.1 ≠ k := hk e (List.mem_cons_self e es)
      have hkt : ∀ e' ∈ es, e'.1 ≠ k := fun e' he' => hk e' (List.mem_cons_of_mem e he')
      have hwft : ∀ e' ∈ es, e'.1 = e'.2.id := fun e' he' => hwf e' (List.mem_cons_of_mem e he')
      refine sync_fold_only_row user_id now ex hexwf k R hRu hRk es dm sm d1 s1
        hkt hwft h ?_ ?_
      all_goals
        rcases sync_step_cases user_id now ex d0 s0 e dm sm hstep with
          ⟨er, upd, hlk, _, hupd, hd, _⟩ | ⟨er, hlk, _, _, hd, _⟩ | ⟨nr, hlk, hnr, hd, _⟩
      -- membership goals
      · subst hd
        have hfR : (if R.user_id == user_id && R.github_repo_id == e.1 then upd else R) = R := by
          rw [if_neg]
          simp only [Bool.and_eq_true, beq_iff_eq, not_and]
          intro _ hgid
          exact hek (hgid.symm.trans hRk)
        exact hfR ▸ List.mem_map_of_mem _ hR
      · subst hd
        exact hR
      · subst hd
        exact List.mem_append_left _ hR
      -- only-row goals
      · subst hd
        intro x hx hxu hxk
        obtain ⟨y, hy, hfy⟩ := List.mem_map.mp hx
        by_cases hc : (y.user_id == user_id && y.github_repo_id == e.1) = true
        · rw [if_pos hc] at hfy
          subst hfy
          exfalso
          apply hek
          have hgid : upd.github_repo_id = er.github_repo_id :=
            (update_ok_fields er e.2 now upd hupd).1
          have her : er.github_repo_id = e.1 :=
            (hexwf (e.1, er) (lookup_mem e.1 er ex hlk)).symm
          rw [← hxk, hgid, her]
        · rw [if_neg hc] at hfy
          subst hfy
          exact honly y hy hxu hxk
      · subst hd
        exact honly
      · subst hd
        intro x hx hxu hxk
        rcases List.mem_append.mp hx with hx' | hx'
        · exact honly x hx' hxu hxk
        · have hxnr : x = nr := by simpa using hx'
          subst hxnr
          have hnrg : x.github_repo_id = e.2.id := (create_ok_fields _ _ _ _ _ hnr).1
          rw [hnrg, ← hwf e (List.mem_cons_self e es)] at hxk
          exact absurd hxk hek

/- An already-archived row is fixed by another archive write. -/
theorem archived_update_self (y : Repository) (hy : y.archived = true) :
    ({ y with archived := true } : Repository) = y := by
  rw [← hy]

/- The archive loop never touches the commit table and adds one to the
deleted counter for exactly the entries absent from the remote map. -/
theorem archive_fold_inv (user_id : Nat) (gm : List (Nat × GithubRepoData)) :
    ∀ (es : List (Nat × Repository)) (acc : DB × SyncStats),
    ((es.foldl (archive_step user_id gm) acc).1.commits = acc.1.commits) ∧
    ((es.foldl (archive_step user_id gm) acc).2.created = acc.2.created) ∧
    ((es.foldl (archive_step user_id gm) acc).2.updated = acc.2.updated) ∧
    ((es.foldl (archive_step user_id gm) acc).2.unchanged = acc.2.unchanged) ∧
    ((es.foldl (archive_step user_id gm) acc).2.deleted =
      acc.2.deleted + es.countP (fun e => (gm.lookup e.1).isNone))
  | [], acc => by simp
  | e :: es, acc => by
    obtain ⟨ih1, ih2, ih3, ih4, ih5⟩ :=
      archive_fold_inv user_id gm es (archive_step user_id gm acc e)
    rw [List.foldl_cons, List.countP_cons]
    by_cases hni : ((gm.lookup e.1).isNone = true)
    · have hstep : archive_step user_id gm acc e =
          ({ acc.1 with repos := acc.1.repos.map (fun r =>
               if r.user_id == user_id && r.github_repo_id == e.1 then
                 { r with archived := true }
               else r) },
           { acc.2 with deleted := acc.2.deleted + 1 }) := by
        rw [archive_step, if_pos hni]
      have hp1 : (archive_step user_id gm acc e).1.commits = acc.1.commits := by
        rw [hstep]
      have hp2 : (archive_step user_id gm acc e).2.created = acc.2.created := by
        rw [hstep]
      have hp3 : (archive_step user_id gm acc e).2.updated = acc.2.updated := by
        rw [hstep]
      have hp4 : (archive_step user_id gm acc e).2.unchanged = acc.2.unchanged := by
        rw [hstep]
      have hp5 : (archive_step user_id gm acc e).2.deleted = acc.2.deleted + 1 := by
        rw [hstep]
      have hcd : (if (gm.lookup e.1).isNone then (1 : Nat) else 0) = 1 := by
        rw [hni]
        rfl
      exact ⟨ih1.trans hp1, ih2.trans hp2, ih3.trans hp3, ih4.trans hp4, by omega⟩
    · have hstep : archive_step user_id gm acc e = acc := by
        rw [archive_step, if_neg hni]
      rw [hstep] at ih1 ih2 ih3 ih4 ih5 ⊢
      have hcd : (if (gm.lookup e.1).isNone then (1 : Nat) else 0) = 0 := by
        rw [Bool.not_eq_true _ |>.mp hni]
        rfl
      exact ⟨ih1, ih2, ih3, ih4, by omega⟩

/- An archived row survives the rest of the archive loop unchanged. -/
theorem archive_fold_keeps_row (user_id : Nat) (gm : List (Nat × GithubRepoData))
    (y : Repository) (hy : y.archived = true) :
    ∀ (es : List (Nat × Repository)) (acc : DB × SyncStats),
    y ∈ acc.1.repos → y ∈ (es.foldl (archive_step user_id gm) acc).1.repos
  | [], _, h => h
  | e :: es, acc, h => by
    rw [List.foldl_cons]
    refine archive_fold_keeps_row user_id gm y hy es _ ?_
    by_cases hni : ((gm.lookup e.1).isNone = true)
    · rw [archive_step, if_pos hni]
      have hfy : (if y.user_id == user_id && y.github_repo_id == e.1 then
          ({ y with archived := true } : Repository) else y) = y := by
        by_cases hc : (y.user_id == user_id && y.github_repo_id == e.1) = true
        · rw [if_pos hc, archived_update_self y hy]
        · rw [if_neg hc]
      exact hfy ▸ List.mem_map_of_mem _ h
    · rw [archive_step, if_neg hni]
      exact h

/- A row of the synced user whose key has a qualifying entry (present in the
snapshot, absent from the remote map) ends the archive loop archived and
retained. -/
theorem archive_fold_archives (user_id : Nat) (gm : List (Nat × GithubRepoData))
    (x : Repository) (hxu : x.user_id = user_id) :
    ∀ (es : List (Nat × Repository)) (acc : DB × SyncStats),
    (∃ e ∈ es, e.1 = x.github_repo_id ∧ gm.lookup e.1 = none) →
    x ∈ acc.1.repos →
    { x with archived := true } ∈ (es.foldl (archive_step user_id gm) acc).1.repos
  | [], _, hex, _ => by simp at hex
  | e :: es, acc, hex, hx => by
    rw [List.foldl_cons]
    by_cases hqual : e.1 = x.github_repo_id ∧ gm.lookup e.1 = none
    · have hni : ((gm.lookup e.1).isNone = true) := by
        rw [hqual.2]
        rfl
      refine archive_fold_keeps_row user_id gm { x with archived := true } rfl es _ ?_
      rw [archive_step, if_pos hni]
      have hfx : (if x.user_id == user_id && x.github_repo_id == e.1 then
          ({ x with archived := true } : Repository) else x) =
          { x with archived := true } := by
        rw [if_pos (by simp [hxu, hqual.1])]
      exact hfx ▸ List.mem_map_of_mem _ hx
    · have hex' : ∃ e' ∈ es, e'.1 = x.github_repo_id ∧ gm.lookup e'.1 = none := by
        rcases hex with ⟨e', he', hq⟩
        rcases List.mem_cons.mp he' with rfl | hmem
        · exact absurd hq hqual
        · exact ⟨e', hmem, hq⟩
      refine archive_fold_archives user_id gm x hxu es _ hex' ?_
      by_cases hni : ((gm.lookup e.1).isNone = true)
      · rw [archive_step, if_pos hni]
        have hne : (x.github_repo_id == e.1) = false := by
          have : ¬(e.1 = x.github_repo_id) := fun hcontra =>
            hqual ⟨hcontra, by simpa using hni⟩
          simp only [beq_eq_false_iff_ne, ne_eq]
          exact fun hcontra => this hcontra.symm
        have hfx : (if x.user_id == user_id && x.github_repo_id == e.1 then
            ({ x with archived := true } : Repository) else x) = x := by
          rw [if_neg (by simp [hne])]
        exact hfx ▸ List.mem_map_of_mem _ hx
      · rw [archive_step, if_neg hni]
        exact hx

/- Once every row matching `(user_id, k)` is archived, the rest of the
archive loop keeps it that way. -/
theorem archive_fold_preserves_all (user_id : Nat) (gm : List (Nat × GithubRepoData))
    (k : Nat) :
    ∀ (es : List (Nat × Repository)) (acc : DB × SyncStats),
    (∀ x ∈ acc.1.repos, x.user_id = user_id → x.github_repo_id = k →
      x.archived = true) →
    ∀ x ∈ (es.foldl (archive_step user_id gm) acc).1.repos,
      x.user_id = user_id → x.github_repo_id = k → x.archived = true
  | [], _, hacc => hacc
  | e :: es, acc, hacc => by
    rw [List.foldl_cons]
    refine archive_fold_preserves_all user_id gm k es _ ?_
    by_cases hni : ((gm.lookup e.1).isNone = true)
    · rw [archive_step, if_pos hni]
      intro x hx hxu hxk
      obtain ⟨y, hy, hfy⟩ := List.mem_map.mp hx
      by_cases hc : (y.user_id == user_id && y.github_repo_id == e.1) = true
      · rw [if_pos hc] at hfy
        subst hfy
        rfl
      · rw [if_neg hc] at hfy
        subst hfy
        exact hacc y hy hxu hxk
    · rw [archive_step, if_neg hni]
      exact hacc

/- If some entry with key `k` qualifies for archiving, then after the archive
loop every row matching `(user_id, k)` is archived. -/
theorem archive_fold_all_archived (user_id : Nat) (gm : List (Nat × GithubRepoData))
    (k : Nat) :
    ∀ (es : List (Nat × Repository)) (acc : DB × SyncStats),
    (∃ e ∈ es, e.1 = k ∧ gm.lookup e.1 = none) →
    ∀ x ∈ (es.foldl (archive_step user_id gm) acc).1.repos,
      x.user_id = user_id → x.github_repo_id = k → x.archived = true
  | [], _, hex => by simp at hex
  | e :: es, acc, hex => by
    rw [List.foldl_cons]
    by_cases hqual : e.1 = k ∧ gm.lookup e.1 = none
    · have hni : ((gm.lookup e.1).isNone = true) := by
        rw [hqual.2]
        rfl
      refine archive_fold_preserves_all user_id gm k es _ ?_
      rw [archive_step, if_pos hni]
      intro x hx hxu hxk
      obtain ⟨y, hy, hfy⟩ := List.mem_map.mp hx
      by_cases hc : (y.user_id == user_id && y.github_repo_id == e.1) = true
      · rw [if_pos hc] at hfy
        subst hfy
        rfl
      · rw [if_neg hc] at hfy
        subst hfy
        exact absurd (by simp [hxu, hxk.trans hqual.1.symm]) hc
    · have hex' : ∃ e' ∈ es, e'.1 = k ∧ gm.lookup e'.1 = none := by
        rcases hex with ⟨e', he', hq⟩
        rcases List.mem_cons.mp he' with rfl | hmem
        · exact absurd hq hqual
        · exact ⟨e', hmem, hq⟩
      exact archive_fold_all_archived user_id gm k es _ hex'

/- When every entry carrying key `k` is still present remotely, the archive
loop preserves "R is the only row matching `(user_id, k)`". -/
theorem archive_fold_only_row (user_id : Nat) (gm : List (Nat × GithubRepoData))
    (k : Nat) (R : Repository) (hRk : R.github_repo_id = k) :
    ∀ (es : List (Nat × Repository)) (acc : DB × SyncStats),
    (∀ e ∈ es, e.1 = k → ¬(gm.lookup e.1 = none)) →
    R ∈ acc.1.repos →
    (∀ x ∈ acc.1.repos, x.user_id = user_id → x.github_repo_id = k → x = R) →
    R ∈ (es.foldl (archive_step user_id gm) acc).1.repos ∧
      (∀ x ∈ (es.foldl (archive_step user_id gm) acc).1.repos,
        x.user_id = user_id → x.github_repo_id = k → x = R)
  | [], _, _, hR, honly => ⟨hR, honly⟩
  | e :: es, acc, hkey, hR, honly => by
    rw [List.foldl_cons]
    have hkeyt : ∀ e' ∈ es, e'.1 = k → ¬(gm.lookup e'.1 = none) :=
      fun e' he' => hkey e' (List.mem_cons_of_mem e he')
    refine archive_fold_only_row user_id gm k R hRk es _ hkeyt ?_ ?_
    all_goals by_cases hni : ((gm.lookup e.1).isNone = true)
    -- membership
    · have hek : e.1 ≠ k := fun hcontra =>
        hkey e (List.mem_cons_self e es) hcontra (by simpa using hni)
      rw [archive_step, if_pos hni]
      have hfR : (if R.user_id == user_id && R.github_repo_id == e.1 then
          ({ R with archived := true } : Repository) else R) = R := by
        rw [if_neg]
        simp only [Bool.and_eq_true, beq_iff_eq, not_and]
        intro _ hgid
        exact hek (hgid.symm.trans hRk)
      exact hfR ▸ List.mem_map_of_mem _ hR
    · rw [archive_step, if_neg hni]
      exact hR
    -- only-row
    · have hek : e.1 ≠ k := fun hcontra =>
        hkey e (List.mem_cons_self e es) hcontra (by simpa using hni)
      rw [archive_step, if_pos hni]
      intro x hx hxu hxk
      obtain ⟨y, hy, hfy⟩ := List.mem_map.mp hx
      by_cases hc : (y.user_id == user_id && y.github_repo_id == e.1) = true
      · rw [if_pos hc] at hfy
        subst hfy
        exfalso
        apply hek
        have hygid : y.github_repo_id = e.1 := by
          have := (Bool.and_eq_true _ _).mp hc
          simpa using this.2
        rw [← hxk]
        simpa using hygid.symm
      · rw [if_neg hc] at hfy
        subst hfy
        exact honly y hy hxu hxk
    · rw [archive_step, if_neg hni]
      exact honly

/-- C3: in every completed run of incremental sync, each locally stored
repository of the synced user whose upstream id is absent from the remote
list ends with `archived = true` while the row is retained (not removed), the
commit table is untouched so the repository's commit history stays
retrievable, the run's deleted counter tallies exactly the user's stored
repositories missing from the remote list (so each such repository is counted
as deleted), and the repository is absent from
`get_user_repositories(include_archived=false)`.  `hnodup` is the schema's
unique constraint on `github_repo_id` (`models.py`, `unique=True`). -/
theorem sync_archives_missing_repo (db : DB) (user_id : Nat)
    (github_repos : List GithubRepoData) (now : Int) (repo : Repository)
    (db' : DB) (res : SyncResult)
    (hnodup : (db.repos.map (fun r => r.github_repo_id)).Nodup)
    (hmem : repo ∈ db.repos) (huser : repo.user_id = user_id)
    (habsent : ∀ g ∈ github_repos, g.id ≠ repo.github_repo_id)
    (hrun : sync_repositories_incremental db user_id github_repos now =
      .ok (db', res)) :
    { repo with archived := true } ∈ db'.repos ∧
    db'.commits = db.commits ∧
    (∀ rid lim, get_repository_commits db' rid lim =
      get_repository_commits db rid lim) ∧
    res.sync_stats.deleted =
      (db.repos.filter (fun r => r.user_id == user_id)).countP
        (fun r => !((github_repos.map (fun g => g.id)).contains r.github_repo_id)) ∧
    (∀ x ∈ get_user_repositories db' user_id false,
      x.github_repo_id ≠ repo.github_repo_id) := by
  have hkeys : ((db.repos.filter (fun r => r.user_id == user_id)).map
      (fun r => r.github_repo_id)).Nodup :=
    List.Nodup.sublist ((List.filter_sublist db.repos).map _) hnodup
  have hex_eq : dictOf (fun r => r.github_repo_id)
      (db.repos.filter (fun r => r.user_id == user_id)) =
      (db.repos.filter (fun r => r.user_id == user_id)).map
        (fun r => (r.github_repo_id, r)) :=
    dictOf_eq_map _ _ hkeys
  have hrepo_f : repo ∈ db.repos.filter (fun r => r.user_id == user_id) :=
    List.mem_filter.mpr ⟨hmem, by simp [huser]⟩
  have hgm_none :
      (dictOf (fun g => g.id) github_repos).lookup repo.github_repo_id = none :=
    (dictOf_lookup_none _ _ _).mpr (fun g hg => by
      simpa using Ne.symm (habsent g hg))
  simp only [sync_repositories_incremental] at hrun
  cases hfold : (dictOf (fun g => g.id) github_repos).foldl
      (sync_step user_id now (dictOf (fun r => r.github_repo_id)
        (db.repos.filter (fun r => r.user_id == user_id))))
      (.ok (db, ⟨0, 0, 0, 0⟩)) with
  | error err =>
    rw [hfold] at hrun
    simp at hrun
  | ok p =>
    obtain ⟨d1, s1⟩ := p
    rw [hfold] at hrun
    simp only [Except.ok.injEq, Prod.mk.injEq] at hrun
    obtain ⟨hdb', hres⟩ := hrun
    subst hdb'
    subst hres
    obtain ⟨hc1, _, hdel1, _, _⟩ :=
      sync_fold_stats user_id now _ _ db ⟨0, 0, 0, 0⟩ d1 s1 hfold
    have hexwf : ∀ e ∈ dictOf (fun r => r.github_repo_id)
        (db.repos.filter (fun r => r.user_id == user_id)),
        e.1 = e.2.github_repo_id :=
      fun e he => (dictOf_wf _ _ e he).1
    have hgmk : ∀ e ∈ dictOf (fun g => g.id) github_repos,
        e.1 ≠ repo.github_repo_id := by
      intro e he
      obtain ⟨hk, hv⟩ := dictOf_wf _ _ e he
      rw [hk]
      exact habsent e.2 hv
    have hgmwf : ∀ e ∈ dictOf (fun g => g.id) github_repos, e.1 = e.2.id :=
      fun e he => (dictOf_wf _ _ e he).1
    have honly0 : ∀ x ∈ db.repos, x.user_id = user_id →
        x.github_repo_id = repo.github_repo_id → x = repo := by
      intro x hx _ hxk
      exact List.inj_on_of_nodup_map hnodup hx hmem hxk
    obtain ⟨hRd1, _⟩ := sync_fold_only_row user_id now _ hexwf
      repo.github_repo_id repo huser rfl _ db ⟨0, 0, 0, 0⟩ d1 s1 hgmk hgmwf
      hfold hmem honly0
    have hqual : ∃ e ∈ dictOf (fun r => r.github_repo_id)
        (db.repos.filter (fun r => r.user_id == user_id)),
        e.1 = repo.github_repo_id ∧
        (dictOf (fun g => g.id) github_repos).lookup e.1 = none := by
      refine ⟨(repo.github_repo_id, repo), ?_, rfl, hgm_none⟩
      rw [hex_eq]
      exact List.mem_map_of_mem _ hrepo_f
    obtain ⟨hai1, _, _, _, hai5⟩ := archive_fold_inv user_id
      (dictOf (fun g => g.id) github_repos)
      (dictOf (fun r => r.github_repo_id)
        (db.repos.filter (fun r => r.user_id == user_id))) (d1, s1)
    have hcommits : (List.foldl (archive_step user_id
        (dictOf (fun g => g.id) github_repos))
        (d1, s1) (dictOf (fun r => r.github_repo_id)
          (db.repos.filter (fun r => r.user_id == user_id)))).1.commits =
        db.commits := by
      rw [hai1]
      exact hc1
    refine ⟨?_, hcommits, ?_, ?_, ?_⟩
    · exact archive_fold_archives user_id _ repo huser _ (d1, s1) hqual hRd1
    · intro rid lim
      simp only [get_repository_commits, hcommits]
    · rw [hai5]
      have hdel0 : s1.deleted = 0 := by simpa using hdel1
      rw [hdel0, hex_eq, List.countP_map]
      rw [Nat.zero_add]
      refine countP_congr_eq _ _ _ ?_
      intro r _
      simp only [Function.comp]
      exact dictOf_lookup_isNone_eq (fun g => g.id) github_repos r.github_repo_id
    · intro x hx hcontra
      have harch := archive_fold_all_archived user_id
        (dictOf (fun g => g.id) github_repos) repo.github_repo_id
        (dictOf (fun r => r.github_repo_id)
          (db.repos.filter (fun r => r.user_id == user_id))) (d1, s1) hqual
      simp only [get_user_repositories] at hx
      rw [if_neg (by simp)] at hx
      rw [mem_orderBy, List.mem_filter, List.mem_filter] at hx
      obtain ⟨⟨hxin, hxu⟩, hxa⟩ := hx
      have : x.archived = true :=
        harch x hxin (by simpa using hxu) hcontra
      simp [this] at hxa

/-- Witness for C3 at a concrete run: syncing user 1 of `dbC3` against a
remote list missing the stored repository completes as `.ok (dbC3arch, ...)`;
the theorem then yields the archived row, untouched history, deleted count 1,
and absence from the active listing. -/
theorem sync_archives_missing_repo_witness :
    { repoC3 with archived := true } ∈ dbC3arch.repos ∧
    dbC3arch.commits = dbC3.commits ∧
    (∀ rid lim, get_repository_commits dbC3arch rid lim =
      get_repository_commits dbC3 rid lim) ∧
    ({ status_code := 200, data := [], sync_stats := ⟨0, 0, 1, 0⟩,
       source := "github_api" } : SyncResult).sync_stats.deleted =
      (dbC3.repos.filter (fun r => r.user_id == 1)).countP
        (fun r => !((([] : List GithubRepoData).map (fun g => g.id)).contains
          r.github_repo_id)) ∧
    (∀ x ∈ get_user_repositories dbC3arch 1 false,
      x.github_repo_id ≠ repoC3.github_repo_id) :=
  sync_archives_missing_repo dbC3 1 [] 500 repoC3 dbC3arch
    { status_code := 200, data := [], sync_stats := ⟨0, 0, 1, 0⟩,
      source := "github_api" }
    (by decide) (by decide) rfl (by simp) rfl

/-- C4 counterexample: the claim as stated fails on the code in two ways.
(1) It says the update path overwrites all three upstream timestamps
(created, updated, pushed): at the concrete pair `(repoC4, ghC4)` — remote
strictly newer, payload `created_at` parsing to wall 200 — the synced row
still carries the OLD `repo_created_at` wall 100, because
`_update_repository_from_github_data` never assigns `repo_created_at`.
(2) It says a repository whose local updated value is absent is updated: at
`(repoC4b, ghC4b)` the local value IS absent but the remote payload has no
`updated_at`, and the run counts the repository unchanged and performs no
write — the `if github_updated and (...)` guard requires the remote value to
be present. -/
theorem sync_update_keeps_created_at_counterexample :
    sync_repositories_incremental dbC4 1 [ghC4] 500 =
      .ok ({ dbC4 with repos := [updC4] },
           { status_code := 200, data := [ghC4], sync_stats := ⟨0, 1, 0, 0⟩,
             source := "github_api" }) ∧
    parse_github_datetime ghC4.created_at = .ok (some ⟨200, none⟩) ∧
    updC4.repo_created_at = some ⟨100, none⟩ ∧
    (some (⟨100, none⟩ : Dt) ≠ some (⟨200, none⟩ : Dt)) ∧
    repoC4b.repo_updated_at = none ∧
    sync_repositories_incremental dbC4b 1 [ghC4b] 500 =
      .ok (dbC4b,
           { status_code := 200, data := [ghC4b], sync_stats := ⟨0, 0, 0, 1⟩,
             source := "github_api" }) := by
  refine ⟨rfl, rfl, rfl, by decide, rfl, rfl⟩

/-- C4 (amended): in every completed run of incremental sync, for every
repository present both locally (owned by the synced user) and in the remote
list: if the remote updated timestamp is present (parses to a value) and
either the local value is absent or the remote one is strictly newer after
normalization, the run overwrites the mutable fields — name, full name,
description, visibility, default branch, language, URLs, the UPDATED and
PUSHED upstream timestamps, and the archived flag — leaving `repo_created_at`
unchanged, refreshes `last_synced_at`, makes that row the unique row for the
pair, and tallies the repository in the `updated` counter (which counts
exactly the entries taking the update branch); otherwise — including when the
remote updated timestamp is absent — the row is left exactly as it was (no
write) and the repository is tallied in the `unchanged` counter.  `hnodup` is
the schema's unique constraint on `github_repo_id`; `hgnodup` holds because
the remote list reports each repository once (the source keys its map by
upstream id). -/
theorem sync_update_overwrites_mutable_fields (db : DB) (user_id : Nat)
    (repo : Repository) (g : GithubRepoData) (github_repos : List GithubRepoData)
    (now : Int) (db' : DB) (res : SyncResult)
    (hnodup : (db.repos.map (fun r => r.github_repo_id)).Nodup)
    (hgnodup : (github_repos.map (fun x => x.id)).Nodup)
    (hmem : repo ∈ db.repos) (huser : repo.user_id = user_id)
    (hg : g ∈ github_repos) (hgid : g.id = repo.github_repo_id)
    (hrun : sync_repositories_incremental db user_id github_repos now =
      .ok (db', res)) :
    (∀ (u : Dt) (psh : Option Dt),
      parse_github_datetime g.updated_at = .ok (some u) →
      parse_github_datetime g.pushed_at = .ok psh →
      (repo.repo_updated_at.isNone ||
        (match normalize_datetime (some u),
               normalize_datetime repo.repo_updated_at with
         | some gn, some ln => decide (ln.wall < gn.wall)
         | _, _ => false)) = true →
      let updatedRepo : Repository :=
        { repo with
          name := g.name, full_name := g.full_name, description := g.description,
          is_private := g.privateFlag.getD false,
          default_branch := g.default_branch.getD "main", language := g.language,
          url := g.url.getD repo.url, html_url := g.html_url,
          repo_updated_at := some u, repo_pushed_at := psh,
          archived := g.archivedFlag.getD false,
          last_synced_at := some ⟨now, none⟩ }
      updatedRepo ∈ db'.repos ∧
      (∀ x ∈ db'.repos, x.user_id = user_id → x.github_repo_id = g.id →
        x = updatedRepo) ∧
      updatedRepo.repo_created_at = repo.repo_created_at ∧
      entry_updates (dictOf (fun r => r.github_repo_id)
        (db.repos.filter (fun r => r.user_id == user_id))) (g.id, g) = true ∧
      res.sync_stats.updated = github_repos.countP (fun x =>
        entry_updates (dictOf (fun r => r.github_repo_id)
          (db.repos.filter (fun r => r.user_id == user_id))) (x.id, x))) ∧
    (∀ gu : Option Dt,
      parse_github_datetime g.updated_at = .ok gu →
      (gu.isSome && (repo.repo_updated_at.isNone ||
        (match normalize_datetime gu,
               normalize_datetime repo.repo_updated_at with
         | some gn, some ln => decide (ln.wall < gn.wall)
         | _, _ => false))) = false →
      repo ∈ db'.repos ∧
      (∀ x ∈ db'.repos, x.user_id = user_id → x.github_repo_id = g.id →
        x = repo) ∧
      entry_unchanged (dictOf (fun r => r.github_repo_id)
        (db.repos.filter (fun r => r.user_id == user_id))) (g.id, g) = true ∧
      res.sync_stats.unchanged = github_repos.countP (fun x =>
        entry_unchanged (dictOf (fun r => r.github_repo_id)
          (db.repos.filter (fun r => r.user_id == user_id))) (x.id, x))) := by
  have hkeys : ((db.repos.filter (fun r => r.user_id == user_id)).map
      (fun r => r.github_repo_id)).Nodup :=
    List.Nodup.sublist ((List.filter_sublist db.repos).map _) hnodup
  have hex_eq : dictOf (fun r => r.github_repo_id)
      (db.repos.filter (fun r => r.user_id == user_id)) =
      (db.repos.filter (fun r => r.user_id == user_id)).map
        (fun r => (r.github_repo_id, r)) :=
    dictOf_eq_map _ _ hkeys
  have hrepo_f : repo ∈ db.repos.filter (fun r => r.user_id == user_id) :=
    List.mem_filter.mpr ⟨hmem, by simp [huser]⟩
  have hexlookup : (dictOf (fun r => r.github_repo_id)
      (db.repos.filter (fun r => r.user_id == user_id))).lookup g.id =
      some repo := by
    rw [hgid, hex_eq]
    exact lookup_map_pair _ _ hkeys repo hrepo_f
  have hexwf : ∀ e ∈ dictOf (fun r => r.github_repo_id)
      (db.repos.filter (fun r => r.user_id == user_id)),
      e.1 = e.2.github_repo_id :=
    fun e he => (dictOf_wf _ _ e he).1
  have hgm_eq : dictOf (fun x => x.id) github_repos =
      github_repos.map (fun x => (x.id, x)) :=
    dictOf_eq_map _ _ hgnodup
  have hgmlookup : (dictOf (fun x => x.id) github_repos).lookup g.id = some g := by
    rw [hgm_eq]
    exact lookup_map_pair _ _ hgnodup g hg
  have honly0 : ∀ x ∈ db.repos, x.user_id = user_id →
      x.github_repo_id = g.id → x = repo := by
    intro x hx _ hxk
    exact List.inj_on_of_nodup_map hnodup hx hmem (hxk.trans hgid)
  have hkeycond : ∀ e ∈ dictOf (fun r => r.github_repo_id)
      (db.repos.filter (fun r => r.user_id == user_id)),
      e.1 = g.id → ¬((dictOf (fun x => x.id) github_repos).lookup e.1 = none) := by
    intro e _ hek hcontra
    rw [hek, hgmlookup] at hcontra
    exact Option.noConfusion hcontra
  obtain ⟨a1, a2, hsplit⟩ := List.append_of_mem hg
  subst hsplit
  have hgn := hgnodup
  rw [List.map_append, List.map_cons] at hgn
  have hgnotin1 : g.id ∉ a1.map (fun x => x.id) := by
    have hd := List.disjoint_of_nodup_append hgn
    exact fun hm => hd hm (List.mem_cons_self _ _)
  have hgnotin2 : g.id ∉ a2.map (fun x => x.id) :=
    (List.nodup_cons.mp hgn.of_append_right).1
  have hL1k : ∀ e ∈ a1.map (fun x => ((x.id, x) : Nat × GithubRepoData)),
      e.1 ≠ g.id := by
    intro e he hcontra
    obtain ⟨x, hx, rfl⟩ := List.mem_map.mp he
    exact hgnotin1 (hcontra ▸ List.mem_map_of_mem _ hx)
  have hL2k : ∀ e ∈ a2.map (fun x => ((x.id, x) : Nat × GithubRepoData)),
      e.1 ≠ g.id := by
    intro e he hcontra
    obtain ⟨x, hx, rfl⟩ := List.mem_map.mp he
    exact hgnotin2 (hcontra ▸ List.mem_map_of_mem _ hx)
  have hL1wf : ∀ e ∈ a1.map (fun x => ((x.id, x) : Nat × GithubRepoData)),
      e.1 = e.2.id := by
    intro e he
    obtain ⟨x, _, rfl⟩ := List.mem_map.mp he
    rfl
  have hL2wf : ∀ e ∈ a2.map (fun x => ((x.id, x) : Nat × GithubRepoData)),
      e.1 = e.2.id := by
    intro e he
    obtain ⟨x, _, rfl⟩ := List.mem_map.mp he
    rfl
  simp only [sync_repositories_incremental] at hrun
  cases hfold : (dictOf (fun x => x.id) (a1 ++ g :: a2)).foldl
      (sync_step user_id now (dictOf (fun r => r.github_repo_id)
        (db.repos.filter (fun r => r.user_id == user_id))))
      (.ok (db, ⟨0, 0, 0, 0⟩)) with
  | error err =>
    rw [hfold] at hrun
    simp at hrun
  | ok p =>
    obtain ⟨d1, s1⟩ := p
    rw [hfold] at hrun
    simp only [Except.ok.injEq, Prod.mk.injEq] at hrun
    obtain ⟨hdb', hres⟩ := hrun
    subst hdb'
    subst hres
    obtain ⟨_, _, _, hupdcnt, huncnt⟩ :=
      sync_fold_stats user_id now _ _ db ⟨0, 0, 0, 0⟩ d1 s1 hfold
    obtain ⟨_, _, haup, haun, _⟩ := archive_fold_inv user_id
      (dictOf (fun x => x.id) (a1 ++ g :: a2))
      (dictOf (fun r => r.github_repo_id)
        (db.repos.filter (fun r => r.user_id == user_id))) (d1, s1)
    have hfoldsplit := hfold
    rw [hgm_eq, List.map_append, List.map_cons, List.foldl_append,
      List.foldl_cons] at hfoldsplit
    cases hacc1 : (a1.map (fun x => ((x.id, x) : Nat × GithubRepoData))).foldl
        (sync_step user_id now (dictOf (fun r => r.github_repo_id)
          (db.repos.filter (fun r => r.user_id == user_id))))
        (.ok (db, ⟨0, 0, 0, 0⟩)) with
    | error err =>
      rw [hacc1, show sync_step user_id now (dictOf (fun r => r.github_repo_id)
        (db.repos.filter (fun r => r.user_id == user_id))) (.error err)
        (g.id, g) = .error err from rfl, sync_foldl_error] at hfoldsplit
      simp at hfoldsplit
    | ok q =>
      obtain ⟨dA, sA⟩ := q
      rw [hacc1] at hfoldsplit
      obtain ⟨hRA, honlyA⟩ := sync_fold_only_row user_id now _ hexwf g.id repo
        huser hgid.symm _ db ⟨0, 0, 0, 0⟩ dA sA hL1k hL1wf hacc1 hmem honly0
      constructor
      · -- update branch
        intro u psh hu hp hcond
        intro updatedRepo
        have hupdate : update_repository_from_github_data repo g now =
            .ok updatedRepo := by
          rw [update_repository_from_github_data, hu, hp]
        have hstepD : sync_step user_id now (dictOf (fun r => r.github_repo_id)
            (db.repos.filter (fun r => r.user_id == user_id)))
            (.ok (dA, sA)) (g.id, g) =
            .ok ({ dA with repos := dA.repos.map (fun r =>
                    if r.user_id == user_id && r.github_repo_id == g.id then
                      updatedRepo
                    else r) },
                 { sA with updated := sA.updated + 1 }) := by
          simp only [sync_step, hexlookup, hu]
          rw [if_pos (by simp [hcond]), hupdate]
        rw [hstepD] at hfoldsplit
        have hfR : (if repo.user_id == user_id && repo.github_repo_id == g.id then
            updatedRepo else repo) = updatedRepo := by
          rw [if_pos (by simp [huser, hgid.symm])]
        have hmemB : updatedRepo ∈ dA.repos.map (fun r =>
            if r.user_id == user_id && r.github_repo_id == g.id then updatedRepo
            else r) :=
          List.mem_map.mpr ⟨repo, hRA, hfR⟩
        have honlyB : ∀ x ∈ dA.repos.map (fun r =>
            if r.user_id == user_id && r.github_repo_id == g.id then updatedRepo
            else r), x.user_id = user_id → x.github_repo_id = g.id →
            x = updatedRepo := by
          intro x hx hxu hxk
          obtain ⟨y, hy, hfy⟩ := List.mem_map.mp hx
          by_cases hc : (y.user_id == user_id && y.github_repo_id == g.id) = true
          · rw [if_pos hc] at hfy
            exact hfy.symm
          · rw [if_neg hc] at hfy
            subst hfy
            exact absurd (by simp [hxu, hxk]) hc
        obtain ⟨hR1, honly1⟩ := sync_fold_only_row user_id now _ hexwf g.id
          updatedRepo huser hgid.symm _ _ _ d1 s1 hL2k hL2wf hfoldsplit
          hmemB honlyB
        obtain ⟨hRfin, honlyfin⟩ := archive_fold_only_row user_id
          (dictOf (fun x => x.id) (a1 ++ g :: a2)) g.id updatedRepo hgid.symm
          _ (d1, s1) hkeycond hR1 honly1
        refine ⟨hRfin, honlyfin, rfl, ?_, ?_⟩
        · simp [entry_updates, hexlookup, hu, hcond]
        · have hcnt : s1.updated = 0 + (dictOf (fun x => x.id)
              (a1 ++ g :: a2)).countP (entry_updates
                (dictOf (fun r => r.github_repo_id)
                  (db.repos.filter (fun r => r.user_id == user_id)))) := by
            simpa using hupdcnt
          show (List.foldl (archive_step user_id
              (dictOf (fun x => x.id) (a1 ++ g :: a2))) (d1, s1)
              (dictOf (fun r => r.github_repo_id)
                (db.repos.filter (fun r => r.user_id == user_id)))).2.updated = _
          rw [haup, hcnt, hgm_eq, List.countP_map, Nat.zero_add]
          rfl
      · -- unchanged branch
        intro gu hgu hcond2
        have hstepD : sync_step user_id now (dictOf (fun r => r.github_repo_id)
            (db.repos.filter (fun r => r.user_id == user_id)))
            (.ok (dA, sA)) (g.id, g) =
            .ok (dA, { sA with unchanged := sA.unchanged + 1 }) := by
          simp only [sync_step, hexlookup, hgu]
          rw [if_neg (by simp [hcond2])]
        rw [hstepD] at hfoldsplit
        obtain ⟨hR1, honly1⟩ := sync_fold_only_row user_id now _ hexwf g.id
          repo huser hgid.symm _ _ _ d1 s1 hL2k hL2wf hfoldsplit hRA honlyA
        obtain ⟨hRfin, honlyfin⟩ := archive_fold_only_row user_id
          (dictOf (fun x => x.id) (a1 ++ g :: a2)) g.id repo hgid.symm
          _ (d1, s1) hkeycond hR1 honly1
        refine ⟨hRfin, honlyfin, ?_, ?_⟩
        · have hupdf : entry_updates (dictOf (fun r => r.github_repo_id)
              (db.repos.filter (fun r => r.user_id == user_id))) (g.id, g) =
              false := by
            simp only [entry_updates, hexlookup, hgu]
            exact hcond2
          simp [entry_unchanged, hexlookup, hupdf]
        · have hcnt : s1.unchanged = 0 + (dictOf (fun x => x.id)
              (a1 ++ g :: a2)).countP (entry_unchanged
                (dictOf (fun r => r.github_repo_id)
                  (db.repos.filter (fun r => r.user_id == user_id)))) := by
            simpa using huncnt
          show (List.foldl (archive_step user_id
              (dictOf (fun x => x.id) (a1 ++ g :: a2))) (d1, s1)
              (dictOf (fun r => r.github_repo_id)
                (db.repos.filter (fun r => r.user_id == user_id)))).2.unchanged = _
          rw [haun, hcnt, hgm_eq, List.countP_map, Nat.zero_add]
          rfl

/-- Witness for C4 at a concrete run: syncing `dbC4` against `[ghC4]` (remote
strictly newer) completes as `.ok`; the update branch of the theorem yields
the overwritten row `updC4` — `repo_created_at` kept — as the unique row for
the pair, with the updated counter at 1. -/
theorem sync_update_overwrites_mutable_fields_witness :
    updC4 ∈ ({ dbC4 with repos := [updC4] } : DB).repos ∧
    (∀ x ∈ ({ dbC4 with repos := [updC4] } : DB).repos,
      x.user_id = 1 → x.github_repo_id = ghC4.id → x = updC4) ∧
    updC4.repo_created_at = repoC4.repo_created_at ∧
    entry_updates (dictOf (fun r => r.github_repo_id)
      (dbC4.repos.filter (fun r => r.user_id == 1))) (ghC4.id, ghC4) = true ∧
    ({ status_code := 200, data := [ghC4], sync_stats := ⟨0, 1, 0, 0⟩,
       source := "github_api" } : SyncResult).sync_stats.updated =
      [ghC4].countP (fun x => entry_updates (dictOf (fun r => r.github_repo_id)
        (dbC4.repos.filter (fun r => r.user_id == 1))) (x.id, x)) :=
  (sync_update_overwrites_mutable_fields dbC4 1 repoC4 ghC4 [ghC4] 500
      { dbC4 with repos := [updC4] }
      { status_code := 200, data := [ghC4], sync_stats := ⟨0, 1, 0, 0⟩,
        source := "github_api" }
      (by decide) (by decide) (by decide) rfl (by decide) rfl rfl).1
    ⟨50, none⟩ (some ⟨45, none⟩) rfl rfl rfl

end BP
